import Mathlib

/-!
# A verification model of the lazy-frame core (omnisci_on_ray backend)

This file shallowly embeds the core data structures and operations of the
partitioned lazy dataframe engine:

* `Partition` with queued transforms and length/width caches, and its
  `mask` operation (modin/engines/base/frame/partition.py).
* `Frame` (logical frame), the plan-node algebra (`OpNode`), the expression
  tree (`BaseExpr`), and the frame-level operations `mask`, `fillna`,
  `dt_year`, `join`, `groupby_agg`, `_union_all`, `_concat`, `bin_op`,
  the common-ancestor resolver `_find_common_projections_base`, the
  expression rebasing `_translate_exprs_to_base`, and materialization
  `_execute` / `_get_index`
  (modin/experimental/engines/omnisci_on_ray/frame/data.py).

Python object identity is modelled by explicit numeric ids (`pid` for
partitions, `fid` for frames); the process-wide monotonic id counter is
modelled by passing the next fresh id explicitly to every constructing
operation.  Exceptions (`NotImplementedError`, `AssertionError`,
`KeyError`, ...) are modelled with `Except Err`.  Mutation of a frame by
`_execute` is modelled by a function returning the updated frame record.
-/

/-- Pandas-style column dtypes, as used by the engine. -/
inductive DType where
  | int64
  | float64
  | boolDt
  | objDt
  | datetime64
  | nullDt
deriving DecidableEq, Repr

/-- Python scalar values that can appear as literals (`LiteralExpr`). -/
inductive Lit where
  | noneV
  | intV (n : Int)
  | strV (s : String)
  | boolV (b : Bool)
deriving DecidableEq, Repr

/-- Modelled from the spec: `LiteralExpr` "infers dtype from the literal's
native type"; an untyped-null literal gets the null dtype. -/
def Lit.dtype : Lit → DType
  | .noneV => .nullDt
  | .intV _ => .int64
  | .strV _ => .objDt
  | .boolV _ => .boolDt

/-- `np.isscalar` is `False` for `None` and `True` for numbers, strings and
booleans. -/
def Lit.isScalar : Lit → Bool
  | .noneV => false
  | _ => true

/-- Python exceptions raised by the modelled code. -/
inductive Err where
  | notImplemented (msg : String)
  | assertionError (msg : String)
  | keyError (key : String)
  | indexError
  | valueError (msg : String)
  | typeError (msg : String)
  | fuelExhausted
deriving DecidableEq, Repr

/-- Whether an exception is the engine's unsupported-operation error
(`NotImplementedError`). -/
def Err.isNotImpl : Err → Bool
  | .notImplemented _ => true
  | _ => false

/-- Whether a call result is an unsupported-operation failure. -/
def resultIsNotImpl {α : Type} : Except Err α → Bool
  | .error e => e.isNotImpl
  | .ok _ => false

/-! ## Partitions (modin/engines/base/frame/partition.py) -/

/-- A Python `slice` object: optional start/stop/step. -/
structure Slice where
  start : Option Int
  stop : Option Int
  step : Option Int
deriving DecidableEq, Repr

/-- `slice(None)`. -/
def sliceAll : Slice := ⟨none, none, none⟩

/-- A row or column selector: a slice, or an explicit list of indices. -/
inductive Sel where
  | slc (s : Slice)
  | elems (l : List Int)
deriving DecidableEq, Repr

/-- Length of `range(start, stop, step)` in Python. -/
def rangeLen (start stop step : Int) : Nat :=
  if 0 < step then ((stop - start + step - 1) / step).toNat
  else if step < 0 then ((start - stop - step - 1) / (-step)).toNat
  else 0

/-- Modelled from the spec: `compute_sliced_len`
(modin/pandas/indexing.py is not part of the provided source): "for a
contiguous range selector against a known extent, the new length is the
intersection length (standard slice-length arithmetic, clipped to
bounds)".  This follows CPython `slice.indices(n)` followed by the length
of the resulting range. -/
def computeSlicedLen (s : Slice) (n : Nat) : Nat :=
  let step : Int := s.step.getD 1
  let lower : Int := if step < 0 then -1 else 0
  let upper : Int := if step < 0 then (n : Int) - 1 else (n : Int)
  let norm : Int → Int := fun v => if v < 0 then v + (n : Int) else v
  let clamp : Int → Int := fun v => max lower (min v upper)
  let start : Int :=
    match s.start with
    | none => if step < 0 then upper else lower
    | some v => clamp (norm v)
  let stop : Int :=
    match s.stop with
    | none => if step < 0 then lower else upper
    | some v => clamp (norm v)
  rangeLen start stop step

/-- A queued per-partition transform.  The only transform queued by
`PandasFramePartition.mask` is the `iloc` sub-selection closure. -/
inductive PFunc where
  | maskIloc (rows cols : Sel)
deriving DecidableEq, Repr

/-- A partition: one physical chunk plus a queue of pending transforms and
lazily cached length/width.  `pid` models Python object identity. -/
structure Partition where
  pid : Nat
  callQueue : List PFunc
  lenCache : Option Nat
  widCache : Option Nat
deriving DecidableEq, Repr

/-- `row_indices` (resp. `col_indices`) denotes "select everything"
relative to the cached extent: it is `slice(None)`, or an explicit index
list whose length equals the cached integer extent. -/
def selFullExtent (sel : Sel) (cache : Option Nat) : Bool :=
  match sel with
  | .slc s => s = sliceAll
  | .elems l =>
    match cache with
    | some n => l.length = n
    | none => false

/-- `PandasFramePartition.mask`.  When both selectors are full-extent the
source returns `self.__copy__()`; `__copy__` is modelled (from the spec's
"new state = new object" rule) as a fresh object with identical queue and
caches, the fresh identity being `freshId`.  Otherwise an `iloc`
sub-selection is appended to the call queue and the caches are updated
analytically. -/
def Partition.mask (p : Partition) (freshId : Nat) (rows cols : Sel) : Partition :=
  if selFullExtent rows p.lenCache ∧ selFullExtent cols p.widCache then
    { p with pid := freshId }
  else
    { pid := freshId
      callQueue := p.callQueue ++ [.maskIloc rows cols]
      lenCache :=
        match rows with
        | .slc s =>
          match p.lenCache with
          | some n => some (computeSlicedLen s n)
          | none => none
        | .elems l => some l.length
      widCache :=
        match cols with
        | .slc s =>
          match p.widCache with
          | some n => some (computeSlicedLen s n)
          | none => none
        | .elems l => some l.length }

/-! ## The logical frame, plan nodes, and expressions
(modin/experimental/engines/omnisci_on_ray/frame/data.py; the node and
expression classes of df_algebra.py / expr.py are not part of the provided
source and are modelled from the spec where noted). -/

/-- Modelled from the spec: an omnisci partition
(omnisci_on_ray/frame/partition.py is not part of the provided source)
wraps a handle to one chunk of data; all the frame code needs from it here
is the row index of its payload, read during `_build_index_cache`. -/
structure OPart where
  oid : Nat
  pIndex : List Int
deriving DecidableEq, Repr

/-- The `groupby_args` dict as consulted by `groupby_agg`: the `"level"`
and `"as_index"` entries. -/
structure GroupbyArgs where
  level : Option Nat
  asIndex : Bool
deriving DecidableEq, Repr

/-- One entry of an aggregate dict: a single aggregate name or a list of
aggregate names. -/
inductive AggDesc where
  | single (a : String)
  | multi (l : List String)
deriving DecidableEq, Repr

mutual
/-- Expression tree (modelled from the spec: expr.py is not part of the
provided source; the spec gives the variants ColumnRef, Literal, BinaryOp,
Conditional, DateTimeExtract, each carrying its result dtype; `is_null` is
the null test used by `fillna`). -/
inductive BaseExpr where
  | refE (frame : Frame) (col : String) (dtype : DType)
  | lit (v : Lit) (dtype : DType)
  | binop (l r : BaseExpr) (opName : String) (dtype : DType)
  | iteE (c t e : BaseExpr) (dtype : DType)
  | isNullE (arg : BaseExpr)
  | dtExtract (datePart : String) (arg : BaseExpr) (dtype : DType)

/-- Plan node algebra (modelled from the spec: df_algebra.py is not part
of the provided source; the spec's table gives the variants and fields;
Source has no inputs, the third `transform` field is the
is-a-pure-projection flag passed as the third `TransformNode` argument). -/
inductive OpNode where
  | source
  | mask (input : Frame) (rowIndices : Option (List Int))
      (rowNumericIdx : Option (List Int)) (colIndices : List String)
  | transform (input : Frame) (exprs : List (String × BaseExpr)) (foldable : Bool)
  | join (left right : Frame) (how : String) (onKeys : List String)
      (srt : Bool) (suf1 suf2 : String)
  | groupbyAgg (base : Frame) (groupbyCols : List String)
      (agg : List (String × AggDesc)) (gargs : GroupbyArgs)
  | union (inputs : List Frame)

/-- `OmnisciOnRayFrame`: id, ordered column labels, optional designated
index columns, dtypes keyed by the physical table columns, the producing
plan node, optional partitions, and the cached row index and row/column
extents. -/
inductive Frame where
  | mk (fid : Nat) (columns : List String) (indexCols : Option (List String))
      (dtypes : List (String × DType)) (opn : OpNode)
      (partitions : Option (List OPart)) (indexCache : Option (List Int))
      (rowLens colWids : Option (List Nat))
end

def Frame.fid : Frame → Nat
  | .mk i _ _ _ _ _ _ _ _ => i

def Frame.columnsL : Frame → List String
  | .mk _ cs _ _ _ _ _ _ _ => cs

def Frame.indexColsL : Frame → Option (List String)
  | .mk _ _ ics _ _ _ _ _ _ => ics

def Frame.dtypesL : Frame → List (String × DType)
  | .mk _ _ _ dts _ _ _ _ _ => dts

def Frame.opn : Frame → OpNode
  | .mk _ _ _ _ o _ _ _ _ => o

def Frame.partsL : Frame → Option (List OPart)
  | .mk _ _ _ _ _ p _ _ _ => p

def Frame.idxCache : Frame → Option (List Int)
  | .mk _ _ _ _ _ _ ic _ _ => ic

/-- `_table_cols = index_cols + columns` when index columns are
designated, else just the columns. -/
def mkTableCols (ics : Option (List String)) (cols : List String) : List String :=
  match ics with
  | some l => l ++ cols
  | none => cols

/-- `_table_cols`: designated index columns prepended to the ordered
column labels. -/
def Frame.tableCols (f : Frame) : List String :=
  mkTableCols f.indexColsL f.columnsL

/-- `_index_width`. -/
def Frame.indexWidth (f : Frame) : Nat :=
  match f.indexColsL with
  | none => 1
  | some ics => ics.length

def OpNode.inputs : OpNode → List Frame
  | .source => []
  | .mask g _ _ _ => [g]
  | .transform g _ _ => [g]
  | .join l r _ _ _ _ _ => [l, r]
  | .groupbyAgg b _ _ _ => [b]
  | .union fs => fs

/-- `op.input[0]`.  A Source node has no inputs (per the spec's plan-node
table), so the subscript fails with a lookup error rather than an
engine `NotImplementedError`. -/
def OpNode.input0 : OpNode → Except Err Frame
  | o =>
    match o.inputs with
    | [] => .error .indexError
    | g :: _ => .ok g

/-! ### Ordered-dict and dtype-series helpers -/

/-- Python dict assignment `d[k] = v`: update in place if the key exists
(keeping its position), else append. -/
def odInsert {α : Type} (m : List (String × α)) (k : String) (v : α) :
    List (String × α) :=
  if m.any (fun p => p.1 = k) then
    m.map (fun p => if p.1 = k then (k, v) else p)
  else m ++ [(k, v)]

/-- Python dict lookup `d[k]` as an option (first matching key). -/
def odGet {α : Type} (m : List (String × α)) (k : String) : Option α :=
  (m.find? (fun p => p.1 = k)).map (fun p => p.2)

/-- `label in series` / `key in dict`. -/
def odHas {α : Type} (m : List (String × α)) (k : String) : Bool :=
  m.any (fun p => p.1 = k)

/-- Label lookup on the dtype series; missing label raises `KeyError`. -/
def seriesGet (m : List (String × DType)) (k : String) : Except Err DType :=
  match odGet m k with
  | some v => .ok v
  | none => .error (.keyError k)

/-- `series[labels]`: sub-series for a list of labels, `KeyError` on a
missing label. -/
def seriesSelect (m : List (String × DType)) (ks : List String) :
    Except Err (List (String × DType)) :=
  ks.mapM (fun k => do pure (k, ← seriesGet m k))

/-- `_dtypes_for_cols`. -/
def dtypesForCols (dts : List (String × DType)) (newIndex : Option (List String))
    (newColumns : List String) : Except Err (List (String × DType)) :=
  match newIndex with
  | some ni => seriesSelect dts (ni ++ newColumns)
  | none => seriesSelect dts newColumns

/-- Result dtype carried by an expression node. -/
def BaseExpr.dtypeOf : BaseExpr → DType
  | .refE _ _ dt => dt
  | .lit _ dt => dt
  | .binop _ _ _ dt => dt
  | .iteE _ _ _ dt => dt
  | .isNullE _ => .boolDt
  | .dtExtract _ _ dt => dt

/-- `_dtypes_for_exprs`. -/
def dtypesForExprs (dts : List (String × DType)) (newIndex : Option (List String))
    (exprs : List (String × BaseExpr)) : Except Err (List DType) := do
  let idxDts ←
    match newIndex with
    | some ni => do pure ((← seriesSelect dts ni).map (fun p => p.2))
    | none => pure ([] : List DType)
  pure (idxDts ++ exprs.map (fun p => p.2.dtypeOf))

/-- Modelled from the spec: `_get_common_dtype` (expr.py is not part of
the provided source); "numeric widening rules, ... incompatible
combination → error". -/
def getCommonDtype (l r : DType) : Except Err DType :=
  if l = r then .ok l
  else if (l = .int64 ∧ r = .float64) ∨ (l = .float64 ∧ r = .int64) then .ok .float64
  else if l = .nullDt then .ok r
  else if r = .nullDt then .ok l
  else .error (.typeError "common type not found")

/-- Modelled from the spec: `_agg_dtype` (expr.py is not part of the
provided source); "count/size → integer, mean/sum-of-floats → float,
min/max → input dtype". -/
def aggDtype (agg : String) (dt : DType) : Except Err DType :=
  if agg = "count" ∨ agg = "size" then .ok .int64
  else if agg = "mean" then .ok .float64
  else if agg = "sum" then .ok (if dt = .float64 then .float64 else dt)
  else if agg = "min" ∨ agg = "max" then .ok dt
  else .error (.notImplemented ("unsupported aggregate " ++ agg))

/-- Comparison operators produce boolean dtype. -/
def isCmpOp (opName : String) : Bool :=
  opName = "eq" ∨ opName = "ne" ∨ opName = "lt" ∨ opName = "le" ∨
  opName = "gt" ∨ opName = "ge"

/-- Modelled from the spec: the `bin_op` expression builder of expr.py;
"BinaryOp computes a result dtype via a type-promotion table (numeric
widening rules, comparison → boolean, incompatible combination → error)". -/
def BaseExpr.binOpE (l r : BaseExpr) (opName : String) : Except Err BaseExpr :=
  if isCmpOp opName then .ok (.binop l r opName .boolDt)
  else do pure (.binop l r opName (← getCommonDtype l.dtypeOf r.dtypeOf))

/-- `build_if_then_else` (modelled from the spec's Conditional variant). -/
def buildIfThenElse (c t e : BaseExpr) (resType : DType) : BaseExpr :=
  .iteE c t e resType

/-- `build_dt_expr` (modelled from the spec's DateTimeExtract variant;
the year part has integer dtype). -/
def buildDtExpr (datePart : String) (arg : BaseExpr) : BaseExpr :=
  .dtExtract datePart arg .int64

/-- `OmnisciOnRayFrame.ref`: the reserved `__rowid__` name denotes row
identity with integer dtype, every other column takes its dtype from the
frame's dtype series. -/
def Frame.ref (f : Frame) (col : String) : Except Err BaseExpr :=
  if col = "__rowid__" then .ok (.refE f col .int64)
  else do pure (.refE f col (← seriesGet f.dtypesL col))

/-! ### Frame construction (`OmnisciOnRayFrame.__init__`) -/

/-- The `dtypes` argument to the constructor: either a plain list (zipped
with the table columns) or an already-keyed series (stored as passed). -/
inductive DtypesArg where
  | list (ds : List DType)
  | series (s : List (String × DType))

def DtypesArg.length : DtypesArg → Nat
  | .list ds => ds.length
  | .series s => s.length

/-- `OmnisciOnRayFrame.__init__` with a caller-supplied fresh id `nid`
standing for the global monotonic counter.  It computes
`_table_cols = index_cols + columns`, asserts
`len(dtypes) == len(table_cols)`, zips list dtypes with the table columns,
defaults a missing op to a Source node, and stores everything. -/
def dtypesKeyed : DtypesArg → List String → List (String × DType)
  | .list ds, tcols => tcols.zip ds
  | .series s, _ => s

def mkFrameC (nid : Nat) (partitions : Option (List OPart))
    (index : Option (List Int)) (columns : List String)
    (rowLens colWids : Option (List Nat)) (dtypes : DtypesArg)
    (opn : Option OpNode) (indexCols : Option (List String)) :
    Except Err Frame :=
  if dtypes.length = (mkTableCols indexCols columns).length then
    .ok (.mk nid columns indexCols
      (dtypesKeyed dtypes (mkTableCols indexCols columns)) (opn.getD .source)
      partitions index rowLens colWids)
  else .error (.assertionError "len(dtypes) == len(self._table_cols)")

/-! ### Frame-level plan-building operations -/

/-- `OmnisciOnRayFrame.mask`. -/
def Frame.maskOp (self : Frame) (nid : Nat)
    (rowIndices rowNumericIdx : Option (List Int))
    (colIndices : Option (List String)) (colNumericIdx : Option (List Nat)) :
    Except Err Frame := do
  let newColumns ←
    match colIndices with
    | some ci => pure ci
    | none =>
      match colNumericIdx with
      | some idxs =>
        idxs.mapM (fun i =>
          match self.columnsL.get? i with
          | some c => Except.ok c
          | none => Except.error Err.indexError)
      | none => pure self.columnsL
  let op := OpNode.mask self rowIndices rowNumericIdx newColumns
  let dts ← dtypesForCols self.dtypesL self.indexColsL newColumns
  mkFrameC nid none none newColumns none none (.series dts) (some op)
    self.indexColsL

/-- The `value` argument of `fillna`: a scalar-like literal or a
per-column dict. -/
inductive FillValue where
  | lit (v : Lit)
  | dictV (m : List (String × Lit))

/-- `OmnisciOnRayFrame.fillna`. -/
def Frame.fillnaOp (self : Frame) (nid : Nat) (value : FillValue)
    (method : Option String) (axis : Option Int) (limit : Option Nat)
    (downcast : Option String) : Except Err Frame :=
  if axis ≠ some 0 then
    .error (.notImplemented "fillna is supported for axis = 0 only")
  else if limit ≠ none then
    .error (.notImplemented "fillna doesn't support limit yet")
  else if downcast ≠ none then
    .error (.notImplemented "fillna doesn't support downcast yet")
  else if method ≠ none then
    .error (.notImplemented "fillna doesn't support method yet")
  else do
    let exprs ←
      match value with
      | .dictV m =>
        self.columnsL.foldlM (fun acc col => do
          let colExpr ← self.ref col
          match odGet m col with
          | some v =>
            let valueExpr := BaseExpr.lit v v.dtype
            let resType ← getCommonDtype v.dtype colExpr.dtypeOf
            pure (odInsert acc col
              (buildIfThenElse (.isNullE colExpr) valueExpr colExpr resType))
          | none => pure (odInsert acc col colExpr)) []
      | .lit v =>
        if v.isScalar then
          self.columnsL.foldlM (fun acc col => do
            let colExpr ← self.ref col
            let resType ← getCommonDtype v.dtype colExpr.dtypeOf
            pure (odInsert acc col
              (buildIfThenElse (.isNullE colExpr) (BaseExpr.lit v v.dtype)
                colExpr resType))) []
        else
          .error (.notImplemented "unsupported value for fillna")
    let newOp := OpNode.transform self exprs true
    let dts ← dtypesForExprs self.dtypesL self.indexColsL exprs
    mkFrameC nid none none self.columnsL none none (.list dts) (some newOp)
      self.indexColsL

/-- `OmnisciOnRayFrame.dt_year`. -/
def Frame.dtYear (self : Frame) (nid : Nat) : Except Err Frame := do
  let exprs ← self.columnsL.foldlM (fun acc col => do
    let colExpr ← self.ref col
    pure (odInsert acc col (buildDtExpr "year" colExpr))) []
  let newOp := OpNode.transform self exprs true
  let dts ← dtypesForExprs self.dtypesL self.indexColsL exprs
  mkFrameC nid none none self.columnsL none none (.list dts) (some newOp)
    self.indexColsL

/-- `OmnisciOnRayFrame.join`. -/
def Frame.joinOp (self other : Frame) (nid : Nat) (how : String)
    (onKeys : Option (List String)) (srt : Bool) (suf1 suf2 : String) :
    Except Err Frame := do
  let onL ←
    match onKeys with
    | some l => pure l
    | none =>
      throw (.assertionError
        "Merge with unspecified 'on' parameter is not supported in the engine")
  for col in onL do
    if ¬ (col ∈ self.columnsL ∧ col ∈ other.columnsL) then
      throw (.assertionError
        "Only cases when both frames contain key column are supported")
  let keyDts ← (seriesSelect self.dtypesL onL).map (fun s => s.map (fun p => p.2))
  let conflicting := self.columnsL.filter (fun c => c ∈ other.columnsL)
  let leftCols := self.columnsL.filter (fun c => ¬ c ∈ onL)
  let leftNames := leftCols.map (fun c =>
    if c ∈ conflicting then c ++ suf1 else c)
  let leftDts ← leftCols.mapM (fun c => seriesGet self.dtypesL c)
  let rightCols := other.columnsL.filter (fun c => ¬ c ∈ onL)
  let rightNames := rightCols.map (fun c =>
    if c ∈ conflicting then c ++ suf2 else c)
  let rightDts ← rightCols.mapM (fun c => seriesGet other.dtypesL c)
  let newColumns := onL ++ leftNames ++ rightNames
  let newDtypes := keyDts ++ leftDts ++ rightDts
  let op := OpNode.join self other how onL srt suf1 suf2
  mkFrameC nid none none newColumns none none (.list newDtypes) (some op) none

/-- `OmnisciOnRayFrame._is_projection_of`: a Mask node directly over
`base` with no row restriction (frame identity compared by id). -/
def Frame.isProjectionOf (self base : Frame) : Bool :=
  match self.opn with
  | .mask g ri rn _ => g.fid = base.fid ∧ ri = none ∧ rn = none
  | _ => false

/-- The `by` argument of `groupby_agg`: a `DFAlgQueryCompiler` wrapping a
frame, or anything else. -/
inductive ByArg where
  | qc (f : Frame)
  | notQc

/-- The `agg` argument of `groupby_agg`: one aggregate name, a per-column
dict, or an unsupported shape. -/
inductive AggArg where
  | strA (a : String)
  | dictA (m : List (String × AggDesc))
  | otherA

/-- The per-column-mapping loop of `groupby_agg`: for each `(col, spec)`
entry, a list of aggregate names adds one `"<col> <agg>"` output column
per name, a single name adds `col` itself; each new column's dtype is the
aggregate-keyed promotion of the column's input dtype. -/
def gbDictFold (self : Frame) (acc : List String × List DType)
    (m : List (String × AggDesc)) : Except Err (List String × List DType) :=
  m.foldlM (fun (acc : List String × List DType) p => do
    match p.2 with
    | .multi items => do
      let dts ← items.mapM (fun it => do
        aggDtype it (← seriesGet self.dtypesL p.1))
      pure (acc.1 ++ items.map (fun it => p.1 ++ " " ++ it), acc.2 ++ dts)
    | .single v => do
      let dt ← aggDtype v (← seriesGet self.dtypesL p.1)
      pure (acc.1 ++ [p.1], acc.2 ++ [dt])) acc

/-- `OmnisciOnRayFrame.groupby_agg`. -/
def Frame.groupbyAggOp (self : Frame) (nid : Nat) (by_ : ByArg) (axis : Int)
    (agg : AggArg) (gargs : GroupbyArgs) : Except Err Frame :=
  match by_ with
  | .notQc => .error (.notImplemented "unsupported groupby args")
  | .qc byf =>
  if axis ≠ 0 then
    .error (.notImplemented "groupby is supported for axis = 0 only")
  else do
  let base ← byf.opn.input0
  if ¬ byf.isProjectionOf base then
    .error (.notImplemented "unsupported groupby args")
  else if self.fid ≠ base.fid ∧ ¬ self.isProjectionOf base then
    .error (.notImplemented "unsupported groupby args")
  else if gargs.level ≠ none then
    .error (.notImplemented "levels are not supported for groupby")
  else do
  let groupbyCols := byf.columnsL
  let indexCols : Option (List String) :=
    if gargs.asIndex then some groupbyCols else none
  let startCols : List String := if gargs.asIndex then [] else groupbyCols
  let gbDts ← (seriesSelect base.dtypesL groupbyCols).map
    (fun s => s.map (fun p => p.2))
  let (aggDict, aggCols, aggDts) ←
    match agg with
    | .strA a => do
      let nonKey := self.columnsL.filter (fun c => ¬ c ∈ groupbyCols)
      let dts ← nonKey.mapM (fun c => do
        aggDtype a (← seriesGet self.dtypesL c))
      pure (nonKey.map (fun c => (c, AggDesc.single a)), nonKey, dts)
    | .dictA m => do
      let colsDts ← gbDictFold self ([], []) m
      pure (m, colsDts.1, colsDts.2)
    | .otherA => throw (.assertionError "unsupported aggregate type")
  let newColumns := startCols ++ aggCols
  let newDtypes := gbDts ++ aggDts
  let newOp := OpNode.groupbyAgg base groupbyCols aggDict gargs
  mkFrameC nid none none newColumns none none (.list newDtypes) (some newOp)
    indexCols

/-! ### Common-ancestor resolution and expression rebasing -/

/-- `OmnisciOnRayFrame._is_projection`: a Mask node with no row
restriction, or any Transform node. -/
def Frame.isProjection (f : Frame) : Bool :=
  match f.opn with
  | .mask _ ri rn _ => ri = none ∧ rn = none
  | .transform _ _ _ => true
  | _ => false

/-- The walk of the first loop of `_find_common_projections_base`:
`self` together with its chain of pure-projection ancestors (`bases`). -/
def Frame.basesChain : Frame → List Frame
  | .mk i cs ics dts o p ic rl cw =>
    (Frame.mk i cs ics dts o p ic rl cw) ::
    match o with
    | .mask g ri rn _ => if ri = none ∧ rn = none then g.basesChain else []
    | .transform g _ _ => g.basesChain
    | _ => []

/-- The second loop of `_find_common_projections_base`: walk `rhs` up its
own pure-projection chain until it is found in `bases` (identity modelled
by frame ids). -/
def Frame.findAmong (bases : List Nat) : Frame → Option Frame
  | .mk i cs ics dts o p ic rl cw =>
    if i ∈ bases then some (Frame.mk i cs ics dts o p ic rl cw)
    else
      match o with
      | .mask g ri rn _ => if ri = none ∧ rn = none then g.findAmong bases else none
      | .transform g _ _ => g.findAmong bases
      | _ => none

/-- `OmnisciOnRayFrame._find_common_projections_base`. -/
def Frame.findCommonBase (self rhs : Frame) : Option Frame :=
  rhs.findAmong (self.basesChain.map Frame.fid)

/-- Add a frame to a Python-set-like collection (identity by id). -/
def addFrame (acc : List Frame) (f : Frame) : List Frame :=
  if acc.any (fun g => g.fid = f.fid) then acc else acc ++ [f]

/-- `collect_frames` (modelled from the spec: expr.py is not part of the
provided source): add every frame referenced by the expression to the
set. -/
def BaseExpr.collectFrames (acc : List Frame) : BaseExpr → List Frame
  | .refE f _ _ => addFrame acc f
  | .lit _ _ => acc
  | .binop l r _ _ => r.collectFrames (l.collectFrames acc)
  | .iteE c t e _ => e.collectFrames (t.collectFrames (c.collectFrames acc))
  | .isNullE a => a.collectFrames acc
  | .dtExtract _ a _ => a.collectFrames acc

/-- All frames referenced by an expression set. -/
def collectAllFrames (exprs : List (String × BaseExpr)) : List Frame :=
  exprs.foldl (fun acc p => p.2.collectFrames acc) []

/-- A per-frame rewrite registered in the `InputMapper` (modelled from the
spec: "(a) a direct re-reference to that frame's own input, if the
intermediate node is a Mask, or (b) substitution of the intermediate
Transform's own expression definitions"). -/
inductive Mapper where
  | direct (target : Frame)
  | transf (exprs : List (String × BaseExpr))

/-- `translate_input` (modelled from the spec): rewrite every column
reference whose frame is registered in the mapper; a DirectMapper
re-references the target frame's column, a TransformMapper inlines the
transform's defining expression for the column. -/
def BaseExpr.translateInput (m : List (Nat × Mapper)) :
    BaseExpr → Except Err BaseExpr
  | .refE f c dt =>
    let mo : Option Mapper := (m.find? (fun p => p.1 = f.fid)).map (fun p => p.2)
    match mo with
    | none => .ok (.refE f c dt)
    | some (.direct t) => t.ref c
    | some (.transf ex) =>
      match odGet ex c with
      | some e => .ok e
      | none => .error (.keyError c)
  | .lit v dt => .ok (.lit v dt)
  | .binop l r o dt => do
    pure (.binop (← l.translateInput m) (← r.translateInput m) o dt)
  | .iteE c t e dt => do
    pure (.iteE (← c.translateInput m) (← t.translateInput m)
      (← e.translateInput m) dt)
  | .isNullE a => do pure (.isNullE (← a.translateInput m))
  | .dtExtract p a dt => do pure (.dtExtract p (← a.translateInput m) dt)

/-- One frame of the mapper-building `for frame in frames` loop of
`_translate_exprs_to_base`: Mask → DirectMapper on the node's input,
Transform → TransformMapper on its expressions, anything else violates
the loop's isinstance assertion; the frame's input is added to the next
frame set unless it is the base. -/
def buildMapperStep (baseFid : Nat)
    (acc : List (Nat × Mapper) × List Frame) (f : Frame) :
    Except Err (List (Nat × Mapper) × List Frame) := do
  let fb ← f.opn.input0
  let nf := if fb.fid ≠ baseFid then addFrame acc.2 fb else acc.2
  match f.opn with
  | .mask _ _ _ _ => pure (acc.1 ++ [(f.fid, Mapper.direct fb)], nf)
  | .transform _ ex _ => pure (acc.1 ++ [(f.fid, Mapper.transf ex)], nf)
  | _ => throw (.assertionError "isinstance(frame._op, TransformNode)")

/-- The mapper-building loop over the current frame set. -/
def buildMapperFold (baseFid : Nat)
    (acc : List (Nat × Mapper) × List Frame) :
    List Frame → Except Err (List (Nat × Mapper) × List Frame)
  | [] => .ok acc
  | f :: fs => do
    let acc' ← buildMapperStep baseFid acc f
    buildMapperFold baseFid acc' fs

/-- The `for expr in exprs` loop of `_translate_exprs_to_base`: translate
every expression through the mapper and collect the frames the translated
expressions reference. -/
def translFold (mapper : List (Nat × Mapper))
    (acc : List (String × BaseExpr) × List Frame) :
    List (String × BaseExpr) →
    Except Err (List (String × BaseExpr) × List Frame)
  | [] => .ok acc
  | p :: ps => do
    let e' ← p.2.translateInput mapper
    translFold mapper (acc.1 ++ [(p.1, e')], e'.collectFrames acc.2) ps

/-- One iteration of the `while len(frames) > 0` loop of
`_translate_exprs_to_base`: build the mapper, add each processed frame's
input to the next frame set, translate every expression, collect the
frames the translated expressions reference, and discard the base. -/
def translStep (baseFid : Nat) (frames : List Frame)
    (exprs : List (String × BaseExpr)) :
    Except Err (List Frame × List (String × BaseExpr)) := do
  let (mapper, nf0) ← buildMapperFold baseFid ([], []) frames
  let (newExprs, nf1) ← translFold mapper ([], nf0) exprs
  pure (nf1.filter (fun g => g.fid ≠ baseFid), newExprs)

/-- The fixed-point loop of `_translate_exprs_to_base`, with explicit
fuel standing for the number of iterations still allowed; running out of
fuel is reported as `fuelExhausted` (the source loop has no such bound;
the termination theorem shows a sufficient bound exists). -/
def translLoop (baseFid : Nat) : Nat → List Frame →
    List (String × BaseExpr) → Except Err (List (String × BaseExpr))
  | _, [], exprs => .ok exprs
  | 0, _ :: _, _ => .error .fuelExhausted
  | fuel + 1, f :: fs, exprs => do
    let (nf, ne) ← translStep baseFid (f :: fs) exprs
    translLoop baseFid fuel nf ne

mutual
/-- Structural size of a frame (an executable analogue of `sizeOf`,
used as the termination measure of the rebasing loop). -/
def Frame.fsize : Frame → Nat
  | .mk _ _ _ _ o _ _ _ _ => OpNode.osize o + 1
  termination_by structural f => f

def OpNode.osize : OpNode → Nat
  | .source => 1
  | .mask g _ _ _ => Frame.fsize g + 1
  | .transform g ex _ => Frame.fsize g + exprsSize ex + 1
  | .join l r _ _ _ _ _ => Frame.fsize l + Frame.fsize r + 1
  | .groupbyAgg b _ _ _ => Frame.fsize b + 1
  | .union fs => framesSize fs + 1
  termination_by structural o => o

def BaseExpr.esize : BaseExpr → Nat
  | .refE f _ _ => Frame.fsize f + 1
  | .lit _ _ => 1
  | .binop l r _ _ => l.esize + r.esize + 1
  | .iteE c t e _ => c.esize + t.esize + e.esize + 1
  | .isNullE a => a.esize + 1
  | .dtExtract _ a _ => a.esize + 1
  termination_by structural e => e

def exprsSize : List (String × BaseExpr) → Nat
  | [] => 0
  | p :: ps => p.2.esize + exprsSize ps + 1
  termination_by structural l => l

def framesSize : List Frame → Nat
  | [] => 0
  | f :: fs => f.fsize + framesSize fs + 1
  termination_by structural l => l
end

/-- Maximum structural size over a frame set: the termination measure of
the rebasing loop. -/
def maxFrameSize (frames : List Frame) : Nat :=
  frames.foldr (fun f n => max f.fsize n) 0

/-- `OmnisciOnRayFrame._translate_exprs_to_base`.  The initial frame set
is everything the expressions reference except the base; the fuel given
to the loop is the maximum frame size, which the termination theorem
shows suffices. -/
def translateExprsToBase (exprs : List (String × BaseExpr)) (base : Frame) :
    Except Err (List (String × BaseExpr)) :=
  let frames0 := (collectAllFrames exprs).filter (fun g => g.fid ≠ base.fid)
  translLoop base.fid (maxFrameSize frames0) frames0 exprs

/-! ### Remaining multi-frame operations -/

/-- Code-point lexicographic comparison of character lists (the order
Python `sorted` uses on strings). -/
def charsLe : List Char → List Char → Bool
  | [], _ => true
  | _ :: _, [] => false
  | c :: cs, d :: ds =>
    if c.toNat < d.toNat then true
    else if d.toNat < c.toNat then false
    else charsLe cs ds

/-- Code-point order on strings. -/
def strLe (a b : String) : Bool := charsLe a.data b.data

/-- Python `sorted` on strings: a stable sort by the code-point
lexicographic order (implemented as insertion sort so that it evaluates
by `rfl`). -/
def insertSorted (x : String) : List String → List String
  | [] => [x]
  | y :: ys => if strLe y x then y :: insertSorted x ys else x :: y :: ys

def pySorted (l : List String) : List String :=
  l.foldl (fun acc x => insertSorted x acc) []

/-- The aligned-index negotiation of `_union_all`'s per-input loop: the
input's designated index columns truncated by the negotiated width (with
their dtypes and index projections), or a synthesized `__index__` column
from `__rowid__` when the input has no designated index columns. -/
def alignIndexInfo (f : Frame) (indexWidth : Nat) (ignoreIndex : Bool) :
    Except Err (Option (List String) × List (String × BaseExpr) × List DType) :=
  if ignoreIndex then
    pure (none, ([] : List (String × BaseExpr)), ([] : List DType))
  else
    match f.indexColsL with
    | some (i0 :: rest) => do
      let ics := i0 :: rest
      let aIdx := ics.take (indexWidth + 1)
      let aDts ← (seriesSelect f.dtypesL aIdx).map
        (fun s => s.map (fun p => p.2))
      let ie ← (ics.take indexWidth).foldlM (fun acc col => do
        pure (odInsert acc col (← f.ref col))) []
      pure (some aIdx, ie, aDts)
    | _ =>
      if indexWidth ≠ 1 then
        .error (.assertionError "unexpected index width")
      else do
        let e ← f.ref "__rowid__"
        pure (some ["__index__"], [("__index__", e)], [DType.int64])

/-- The per-input alignment step of `_union_all`: derive the aligned
index, then project every reconciled output column — a direct reference
when the input has the column, an untyped-null literal otherwise — and
wrap the input in a Transform node. -/
def alignFrame (newColumns : List String) (newDtypes : List DType)
    (indexWidth : Nat) (ignoreIndex : Bool) (nid : Nat) (f : Frame) :
    Except Err Frame := do
  let (alignedIndex, idxExprs, alignedIndexDtypes) ←
    alignIndexInfo f indexWidth ignoreIndex
  let exprs ← newColumns.foldlM (fun acc col => do
    if col ∈ f.tableCols then
      pure (odInsert acc col (← f.ref col))
    else
      pure (odInsert acc col (BaseExpr.lit .noneV .nullDt))) idxExprs
  let alignedDtypes := alignedIndexDtypes ++ newDtypes
  mkFrameC nid none none newColumns none none (.list alignedDtypes)
    (some (.transform f exprs false)) alignedIndex

/-- `OmnisciOnRayFrame._union_all`.  Fresh frame ids are `nid`, `nid+1`,
... for the aligned wrappers (in order) and `nid + (number of inputs)` for
the result. -/
def Frame.unionAll (self : Frame) (nid : Nat) (others : List Frame)
    (joinKind : String) (srt : Bool) (ignoreIndex : Bool) :
    Except Err Frame := do
  let m0 ← self.columnsL.foldlM (fun m c => do
    pure (odInsert m c (← seriesGet self.dtypesL c))) []
  let newColsMap ← others.foldlM (fun m f =>
    if joinKind = "inner" then
      pure (m.filter (fun p => p.1 ∈ f.columnsL))
    else
      f.columnsL.foldlM (fun m2 c =>
        if odHas m2 c then pure m2
        else do pure (m2 ++ [(c, ← seriesGet f.dtypesL c)])) m) m0
  let newColumns0 := newColsMap.map (fun p => p.1)
  let newColumns := if srt then pySorted newColumns0 else newColumns0
  let indexWidth := others.foldl (fun w f => min w f.indexWidth) self.indexWidth
  let newDtypes ←
    if srt then
      newColumns.mapM (fun c =>
        match odGet newColsMap c with
        | some dt => Except.ok dt
        | none => Except.error (Err.keyError c))
    else pure (newColsMap.map (fun p => p.2))
  let frames := self :: others
  let aligned ← frames.enum.mapM (fun p =>
    alignFrame newColumns newDtypes indexWidth ignoreIndex (nid + p.1) p.2)
  match aligned with
  | [] => throw .indexError
  | a0 :: rest =>
    mkFrameC (nid + frames.length) none none newColumns none none
      (.series a0.dtypesL) (some (.union (a0 :: rest))) a0.indexColsL

/-- `OmnisciOnRayFrame._concat`. -/
def Frame.concatOp (self : Frame) (nid : Nat) (axis : Int)
    (others : List Frame) (joinKind : String) (srt : Bool)
    (ignoreIndex : Bool) : Except Err Frame := do
  if axis = 0 then
    self.unionAll nid others joinKind srt ignoreIndex
  else do
    let base ← others.foldlM (fun b f =>
      match Frame.findCommonBase b f with
      | some nb => pure nb
      | none => throw (Err.notImplemented
          "concat requiring join is not supported yet")) self
    let exprs0 ← self.columnsL.foldlM (fun acc col => do
      pure (odInsert acc col (← self.ref col))) []
    let exprs1 ← others.foldlM (fun acc f =>
      f.columnsL.foldlM (fun acc2 col => do
        let newCol :=
          if col = "" ∨ odHas acc2 col then
            "__col" ++ toString acc2.length ++ "__"
          else col
        pure (odInsert acc2 newCol (← f.ref col))) acc) exprs0
    let exprs ← translateExprsToBase exprs1 base
    let newColumns := exprs.map (fun p => p.1)
    let dts ← dtypesForExprs self.dtypesL self.indexColsL exprs
    mkFrameC nid none none newColumns none none (.list dts)
      (some (.transform self exprs true)) self.indexColsL

/-- The `other` argument of `bin_op`: a number, a list of per-column
values, or another frame. -/
inductive BinOperand where
  | scalar (n : Int)
  | listV (l : List Lit)
  | frameOp (g : Frame)

/-- `OmnisciOnRayFrame.bin_op`. -/
def Frame.binOp (self : Frame) (nid : Nat) (other : BinOperand)
    (opName : String) (fillValue : Option Lit) : Except Err Frame := do
  match other with
  | .scalar n =>
    let ve := BaseExpr.lit (.intV n) (Lit.intV n).dtype
    let exprs ← self.columnsL.foldlM (fun acc col => do
      let l ← self.ref col
      pure (odInsert acc col (← l.binOpE ve opName))) []
    let dts ← dtypesForExprs self.dtypesL self.indexColsL exprs
    mkFrameC nid none none self.columnsL none none (.list dts)
      (some (.transform self exprs true)) self.indexColsL
  | .listV vals =>
    if vals.length ≠ self.columnsL.length then
      .error (.valueError "length must match columns")
    else do
    let exprs ← (self.columnsL.zip vals).foldlM (fun acc p => do
      let l ← self.ref p.1
      pure (odInsert acc p.1 (← l.binOpE (BaseExpr.lit p.2 p.2.dtype) opName)))
      []
    let dts ← dtypesForExprs self.dtypesL self.indexColsL exprs
    mkFrameC nid none none self.columnsL none none (.list dts)
      (some (.transform self exprs true)) self.indexColsL
  | .frameOp other =>
    let base ←
      match Frame.findCommonBase self other with
      | some b => pure b
      | none => throw (Err.notImplemented
          "unsupported binary op args (outer join is not supported)")
    let extra := other.columnsL.filter (fun c => ¬ c ∈ self.columnsL)
    let newColumns := pySorted (self.columnsL ++ extra)
    let fillExpr := fillValue.map (fun v => BaseExpr.lit v v.dtype)
    let exprs ← newColumns.foldlM (fun acc col => do
      let lhs ←
        if col ∈ self.columnsL then do pure (some (← self.ref col))
        else pure fillExpr
      let rhs ←
        if col ∈ other.columnsL then do pure (some (← other.ref col))
        else pure fillExpr
      match lhs, rhs with
      | some l, some r => do pure (odInsert acc col (← l.binOpE r opName))
      | _, _ => pure (odInsert acc col (BaseExpr.lit .noneV .nullDt))) []
    let exprsT ← translateExprsToBase exprs base
    let dts ← dtypesForExprs self.dtypesL self.indexColsL exprsT
    mkFrameC nid none none newColumns none none (.list dts)
      (some (.transform base exprsT true)) self.indexColsL

/-! ### Materialization (`_execute`, `_build_index_cache`, `_get_index`) -/

/-- `OmnisciOnRayFrame._execute`: a no-op when the plan node is already a
Source (`FrameNode`); otherwise the plan result (`run_exec_plan` is an
external collaborator, so its result is a parameter here) becomes the
frame's partitions and the plan node is replaced by a Source node. -/
def Frame.executeF : Frame → List OPart → Frame
  | .mk i cs ics dts o p ic rl cw, run =>
    match o with
    | .source => .mk i cs ics dts .source p ic rl cw
    | _ => .mk i cs ics dts .source (some run) ic rl cw

/-- Record a freshly read row index in the cache. -/
def Frame.withIdxCache : Frame → List Int → Frame
  | .mk i cs ics dts o p _ rl cw, idx => .mk i cs ics dts o p (some idx) rl cw

/-- `OmnisciOnRayFrame._get_index` (with `_build_index_cache` inlined):
execute, then return the cached index, reading it from the single result
partition only when the cache is absent.  The returned `Nat` counts how
many times the index was read from a partition payload (`ray.get`). -/
def Frame.getIndexF (f : Frame) (runResult : List OPart) :
    Except Err (Frame × List Int × Nat) :=
  let f' := f.executeF runResult
  match f'.idxCache with
  | some idx => .ok (f', idx, 0)
  | none =>
    match f'.partsL with
    | some [p] => .ok (f'.withIdxCache p.pIndex, p.pIndex, 1)
    | _ => .error (.assertionError "self._partitions.size == 1")

/-! ### Concrete example values (used by the closed evaluation theorems) -/

/-- A materialized source frame over integer columns `a`, `b`. -/
def exFrameA : Frame :=
  .mk 1 ["a", "b"] none [("a", .int64), ("b", .int64)] .source none none
    none none

/-- A pure column projection of `exFrameA` onto `a` (the frame
`exFrameA.mask(col_indices=["a"])` builds). -/
def exFrameB : Frame :=
  .mk 2 ["a"] none [("a", .int64)] (.mask exFrameA none none ["a"]) none none
    none none

/-- A pure column projection of `exFrameA` onto `b`. -/
def exFrameC : Frame :=
  .mk 3 ["b"] none [("b", .int64)] (.mask exFrameA none none ["b"]) none none
    none none

/-- A source frame unrelated to `exFrameA`, over columns `b`, `c`. -/
def exFrameD : Frame :=
  .mk 4 ["b", "c"] none [("b", .int64), ("c", .int64)] .source none none
    none none

/-- A source frame with one partition whose payload has row index 7, 8. -/
def exFrameSrc : Frame :=
  .mk 5 ["a"] none [("a", .int64)] .source (some [⟨0, [7, 8]⟩]) none none none

/-- A lazy frame (non-Source plan node) without partitions. -/
def exFrameLazy : Frame :=
  .mk 6 ["a"] none [("a", .int64)] (.mask exFrameSrc none none ["a"]) none
    none none none

/-- A frame sharing only the non-key column `x` with `exFrameKeyR`:
columns `k`, `x`. -/
def exFrameKeyL : Frame :=
  .mk 7 ["k", "x"] none [("k", .int64), ("x", .float64)] .source none none
    none none

/-- Join partner of `exFrameKeyL`: columns `k`, `x`, `y`. -/
def exFrameKeyR : Frame :=
  .mk 8 ["k", "x", "y"] none [("k", .int64), ("x", .int64), ("y", .objDt)]
    .source none none none none

/-- A partition with empty call queue and cached extents 5 × 3. -/
def exPart : Partition := ⟨0, [], some 5, some 3⟩

/-- Insert a column name at the end unless already present (the key
behaviour of ordered-dict assignment). -/
def insAbsent (acc : List String) (c : String) : List String :=
  if c ∈ acc then acc else acc ++ [c]

/-- The union of several column lists in first-occurrence order. -/
def unionFirstOcc (ls : List (List String)) : List String :=
  ls.foldl (fun acc l => l.foldl insAbsent acc) []

/-- Unwrap a successful operation result (the fallback is never reached
in the concrete runs below). -/
def okFrame (r : Except Err Frame) : Frame :=
  match r with
  | .ok g => g
  | .error _ => exFrameA

/-- Result of `exFrameA.mask(col_indices=["a"])`. -/
def exMaskRes : Frame := okFrame (exFrameA.maskOp 10 none none (some ["a"]) none)

/-- Result of `exFrameA.fillna(value=0, axis=0)`. -/
def exFillnaRes : Frame :=
  okFrame (exFrameA.fillnaOp 10 (.lit (.intV 0)) none (some 0) none none)

/-- Result of `exFrameA.dt_year()`. -/
def exDtYearRes : Frame := okFrame (exFrameA.dtYear 10)

/-- Result of `exFrameKeyL.join(exFrameKeyR, on=["k"])`. -/
def exJoinRes : Frame :=
  okFrame (exFrameKeyL.joinOp exFrameKeyR 10 "inner" (some ["k"]) false "_x" "_y")

/-- Result of `exFrameA.groupby_agg(by=exFrameB, axis=0, agg="sum",
as_index=True)`. -/
def exGroupbyRes : Frame :=
  okFrame (exFrameA.groupbyAggOp 10 (.qc exFrameB) 0 (.strA "sum")
    ⟨none, true⟩)

/-- Result of `exFrameB.bin_op(exFrameC, "add")` (two projections of
`exFrameA`). -/
def exBinOpRes : Frame :=
  okFrame (exFrameB.binOp 10 (.frameOp exFrameC) "add" none)

/-- Result of `exFrameB._concat(axis=1, [exFrameC])`. -/
def exConcatRes : Frame :=
  okFrame (exFrameB.concatOp 10 1 [exFrameC] "outer" false false)

/-- Result of `exFrameA._union_all(axis=0, [exFrameD])` with outer join
and untouched index. -/
def exUnionRes : Frame :=
  okFrame (exFrameA.unionAll 10 [exFrameD] "outer" false false)

/-- Result of `exFrameA._union_all(axis=0, [exFrameD], join="inner")`. -/
def exUnionInnerRes : Frame :=
  okFrame (exFrameA.unionAll 10 [exFrameD] "inner" false false)

/-- Result of `exFrameA.groupby_agg` with the per-column aggregate dict
mapping `b` to `["count", "mean"]`. -/
def exGroupbyDictRes : Frame :=
  okFrame (exFrameA.groupbyAggOp 10 (.qc exFrameB) 0
    (.dictA [("b", .multi ["count", "mean"])]) ⟨none, true⟩)

/-- The frame ids referenced by an expression (proof vocabulary for the
rebasing-termination argument). -/
def BaseExpr.refFids : BaseExpr → List Nat
  | .refE f _ _ => [f.fid]
  | .lit _ _ => []
  | .binop l r _ _ => l.refFids ++ r.refFids
  | .iteE c t e _ => c.refFids ++ t.refFids ++ e.refFids
  | .isNullE a => a.refFids
  | .dtExtract _ a _ => a.refFids

/-- The frame ids referenced by an expression set. -/
def allRefFids (exprs : List (String × BaseExpr)) : List Nat :=
  exprs.foldr (fun p acc => p.2.refFids ++ acc) []

/-- A mapper entry is bounded by the frame set it was built from: a
DirectMapper target or a TransformMapper expression list is a strict
structural piece of some frame of the set. -/
def MapperBound (frames : List Frame) (q : Nat × Mapper) : Prop :=
  match q.2 with
  | .direct t => ∃ f ∈ frames, t.fsize < f.fsize
  | .transf ex => ∃ f ∈ frames, exprsSize ex < f.fsize

/-- The loop invariant of `_translate_exprs_to_base`: every frame id the
expressions reference is the base or belongs to the pending frame set. -/
def InvRefs (baseFid : Nat) (frames : List Frame)
    (exprs : List (String × BaseExpr)) : Prop :=
  ∀ i ∈ allRefFids exprs, i = baseFid ∨ ∃ g ∈ frames, g.fid = i

/-- Input of the concrete rebasing run: one expression referencing the
projection `exFrameB`, to be rebased onto `exFrameA`. -/
def exTranslInput : List (String × BaseExpr) :=
  [("a", BaseExpr.refE exFrameB "a" DType.int64)]

/-- Result of the concrete rebasing run. -/
def exTranslRes : List (String × BaseExpr) :=
  match translateExprsToBase exTranslInput exFrameA with
  | .ok r => r
  | .error _ => []

/-! ## Helper lemmas -/

theorem bindOk {α β : Type} {e : Except Err α} {f : α → Except Err β} {b : β}
    (h : (e >>= f) = .ok b) : ∃ a, e = .ok a ∧ f a = .ok b := by
  cases e with
  | ok a => exact ⟨a, rfl, h⟩
  | error err => simp [Bind.bind, Except.bind] at h

/-- Shape of a successfully constructed frame: every field is stored as
passed (after zipping list dtypes with the table columns). -/
theorem mkFrameC_okShape {nid : Nat} {parts : Option (List OPart)}
    {idx : Option (List Int)} {cols : List String}
    {rl cw : Option (List Nat)} {dts : DtypesArg} {opn : Option OpNode}
    {ics : Option (List String)} {g : Frame}
    (h : mkFrameC nid parts idx cols rl cw dts opn ics = .ok g) :
    g.fid = nid ∧ g.columnsL = cols ∧ g.indexColsL = ics ∧
    g.opn = opn.getD .source ∧ g.partsL = parts ∧ g.idxCache = idx := by
  unfold mkFrameC at h
  split at h
  · injection h with h
    subst h
    simp [Frame.fid, Frame.columnsL, Frame.indexColsL, Frame.opn,
      Frame.partsL, Frame.idxCache]
  · exact absurd h (by simp)

/-- The dtype series stored by a successful construction. -/
theorem mkFrameC_okDtypes {nid : Nat} {parts : Option (List OPart)}
    {idx : Option (List Int)} {cols : List String}
    {rl cw : Option (List Nat)} {dts : DtypesArg} {opn : Option OpNode}
    {ics : Option (List String)} {g : Frame}
    (h : mkFrameC nid parts idx cols rl cw dts opn ics = .ok g) :
    g.dtypesL = dtypesKeyed dts (mkTableCols ics cols) ∧
    dts.length = (mkTableCols ics cols).length := by
  unfold mkFrameC at h
  split at h
  case isTrue hl =>
    injection h with h
    subst h
    exact ⟨rfl, hl⟩
  case isFalse => exact absurd h (by simp)

/-- Length of the stored dtype series of a successfully constructed
frame: it always matches the physical table columns. -/
theorem mkFrameC_dtypesLen {nid : Nat} {parts : Option (List OPart)}
    {idx : Option (List Int)} {cols : List String}
    {rl cw : Option (List Nat)} {dts : DtypesArg} {opn : Option OpNode}
    {ics : Option (List String)} {g : Frame}
    (h : mkFrameC nid parts idx cols rl cw dts opn ics = .ok g) :
    g.dtypesL.length = g.tableCols.length := by
  obtain ⟨hd, hl⟩ := mkFrameC_okDtypes h
  obtain ⟨-, hc, hi, -, -, -⟩ := mkFrameC_okShape h
  rw [hd, Frame.tableCols, hc, hi]
  cases dts with
  | list ds =>
    simp only [dtypesKeyed, DtypesArg.length] at *
    simp [List.length_zip]
    omega
  | series sr =>
    simp only [dtypesKeyed, DtypesArg.length] at *
    exact hl

/-- The constructor fails with the arity assertion exactly when the
supplied dtype count differs from the table-column count. -/
theorem mkFrameC_arityFail (nid : Nat) (parts : Option (List OPart))
    (idx : Option (List Int)) (cols : List String)
    (rl cw : Option (List Nat)) (dts : DtypesArg) (opn : Option OpNode)
    (ics : Option (List String))
    (h : dts.length ≠ (mkTableCols ics cols).length) :
    mkFrameC nid parts idx cols rl cw dts opn ics =
      .error (.assertionError "len(dtypes) == len(self._table_cols)") := by
  unfold mkFrameC
  split
  case isTrue ht => exact absurd ht h
  case isFalse => rfl

/-! ## Claim theorems -/

/-- C10: every logical frame built by the constructor satisfies the
schema-arity invariant — the stored dtype series has exactly one entry
per physical table column (index columns prepended to the column
labels) — and any construction attempt whose dtype count differs from
the table-column count fails with the arity assertion. -/
theorem claim10_schema_arity (nid : Nat) (parts : Option (List OPart))
    (idx : Option (List Int)) (cols : List String)
    (rl cw : Option (List Nat)) (dts : DtypesArg) (opn : Option OpNode)
    (ics : Option (List String)) (g : Frame) :
    (mkFrameC nid parts idx cols rl cw dts opn ics = .ok g →
      g.dtypesL.length = g.tableCols.length) ∧
    (dts.length ≠ (mkTableCols ics cols).length →
      mkFrameC nid parts idx cols rl cw dts opn ics =
        .error (.assertionError "len(dtypes) == len(self._table_cols)")) :=
  ⟨fun h => mkFrameC_dtypesLen h,
   fun h => mkFrameC_arityFail nid parts idx cols rl cw dts opn ics h⟩

/-- Concrete run of C10: a well-formed construction yields a frame whose
dtype count matches its table columns, and an ill-formed one (no dtypes
for one column) raises the assertion. -/
theorem claim10_schema_arity_witness :
    (Frame.mk 9 ["a"] none [("a", DType.int64)] .source none none
      none none).dtypesL.length =
      (Frame.mk 9 ["a"] none [("a", DType.int64)] .source none none
        none none).tableCols.length ∧
    mkFrameC 9 none none ["a"] none none (.list []) none none =
      .error (.assertionError "len(dtypes) == len(self._table_cols)") :=
  ⟨(claim10_schema_arity 9 none none ["a"] none none (.list [DType.int64])
      none none
      (Frame.mk 9 ["a"] none [("a", DType.int64)] .source none none
        none none)).1 rfl,
   (claim10_schema_arity 9 none none ["a"] none none (.list []) none none
      (Frame.mk 9 ["a"] none [("a", DType.int64)] .source none none
        none none)).2 (by decide)⟩

theorem executeF_opn (f : Frame) (run : List OPart) :
    (f.executeF run).opn = .source := by
  cases f with
  | mk i cs ics dts o p ic rl cw => cases o <;> rfl

theorem executeF_source_eq (f : Frame) (run : List OPart)
    (h : f.opn = .source) : f.executeF run = f := by
  cases f with
  | mk i cs ics dts o p ic rl cw =>
    simp only [Frame.opn] at h
    subst h
    rfl

theorem executeF_idxCache (f : Frame) (run : List OPart) :
    (f.executeF run).idxCache = f.idxCache := by
  cases f with
  | mk i cs ics dts o p ic rl cw => cases o <;> rfl

theorem withIdxCache_spec (f : Frame) (l : List Int) :
    (f.withIdxCache l).idxCache = some l ∧ (f.withIdxCache l).opn = f.opn := by
  cases f with
  | mk i cs ics dts o p ic rl cw => exact ⟨rfl, rfl⟩

/-- `_get_index` unfolded over the executed frame. -/
theorem getIndexF_eq (f : Frame) (run : List OPart) :
    f.getIndexF run =
      (match (f.executeF run).idxCache with
       | some idx => .ok (f.executeF run, idx, 0)
       | none =>
         match (f.executeF run).partsL with
         | some [p] =>
           .ok ((f.executeF run).withIdxCache p.pIndex, p.pIndex, 1)
         | _ => .error (.assertionError "self._partitions.size == 1")) := rfl

/-- C9: materialization is a one-way idempotent transition — executing a
frame whose plan node is already Source changes nothing; executing any
frame leaves it with a Source plan node; re-executing is a no-op; and
`_get_index` reads the index from the result partition exactly once when
the cache is absent (count 1, cache then populated), zero times when it
is present, and any further `_get_index` performs zero reads and changes
nothing. -/
theorem claim9_materialization (f : Frame) (run run2 : List OPart)
    (g : Frame) (idx : List Int) (n : Nat) :
    (f.opn = .source → f.executeF run = f) ∧
    (f.executeF run).opn = .source ∧
    (f.executeF run).executeF run2 = f.executeF run ∧
    (f.getIndexF run = .ok (g, idx, n) →
      (f.idxCache = none → n = 1 ∧ g.idxCache = some idx) ∧
      (∀ i, f.idxCache = some i → n = 0 ∧ idx = i ∧ g = f.executeF run) ∧
      (∀ g2 idx2 n2, g.getIndexF run2 = .ok (g2, idx2, n2) →
        n2 = 0 ∧ idx2 = idx ∧ g2 = g)) := by
  refine ⟨executeF_source_eq f run, executeF_opn f run,
    executeF_source_eq _ run2 (executeF_opn f run), ?_⟩
  intro hok
  rw [getIndexF_eq] at hok
  cases hic : (f.executeF run).idxCache with
  | some i0 =>
    rw [hic] at hok
    simp only [Except.ok.injEq, Prod.mk.injEq] at hok
    obtain ⟨hg, hidx, hn⟩ := hok
    subst hg hidx hn
    have hfc : f.idxCache = some i0 := by rw [← executeF_idxCache f run, hic]
    refine ⟨fun hno => ?_, ?_, ?_⟩
    · rw [hfc] at hno
      cases hno
    · intro i hi
      rw [hfc] at hi
      cases hi
      exact ⟨rfl, rfl, rfl⟩
    · intro g2 idx2 n2 h2
      rw [getIndexF_eq,
        executeF_source_eq _ run2 (executeF_opn f run), hic] at h2
      simp only [Except.ok.injEq, Prod.mk.injEq] at h2
      obtain ⟨hg2, hidx2, hn2⟩ := h2
      exact ⟨hn2.symm, hidx2.symm, hg2.symm⟩
  | none =>
    rw [hic] at hok
    cases hp : (f.executeF run).partsL with
    | none => rw [hp] at hok; cases hok
    | some ps =>
      rw [hp] at hok
      match ps, hok with
      | [p0], hok =>
        simp only [Except.ok.injEq, Prod.mk.injEq] at hok
        obtain ⟨hg, hidx, hn⟩ := hok
        subst hg hidx hn
        have hgic := (withIdxCache_spec (f.executeF run) p0.pIndex).1
        have hgop := (withIdxCache_spec (f.executeF run) p0.pIndex).2
        refine ⟨fun _ => ⟨rfl, hgic⟩, ?_, ?_⟩
        · intro i hi
          rw [← executeF_idxCache f run, hic] at hi
          cases hi
        · intro g2 idx2 n2 h2
          have hgsrc : ((f.executeF run).withIdxCache p0.pIndex).opn =
              .source := by rw [hgop]; exact executeF_opn f run
          rw [getIndexF_eq, executeF_source_eq _ run2 hgsrc, hgic] at h2
          simp only [Except.ok.injEq, Prod.mk.injEq] at h2
          obtain ⟨hg2, hidx2, hn2⟩ := h2
          exact ⟨hn2.symm, hidx2.symm, hg2.symm⟩

/-- Concrete run of C9: executing the already-materialized `exFrameSrc`
changes nothing; its `_get_index` reads the partition index `[7, 8]`
exactly once and caches it, and a repeated `_get_index` reads zero
times. -/
theorem claim9_materialization_witness :
    exFrameSrc.executeF [] = exFrameSrc ∧
    (exFrameSrc.getIndexF [] =
        .ok (exFrameSrc.withIdxCache [7, 8], [7, 8], 1) →
      (exFrameSrc.withIdxCache [7, 8]).idxCache = some [7, 8] ∧
      (exFrameSrc.withIdxCache [7, 8]).getIndexF [] =
        .ok (exFrameSrc.withIdxCache [7, 8], [7, 8], 0)) :=
  ⟨(claim9_materialization exFrameSrc [] [] exFrameSrc [] 0).1 rfl,
   fun hok =>
     ⟨(((claim9_materialization exFrameSrc [] []
          (exFrameSrc.withIdxCache [7, 8]) [7, 8] 1).2.2.2 hok).1 rfl).2,
      by
        have h2 := ((claim9_materialization exFrameSrc [] []
          (exFrameSrc.withIdxCache [7, 8]) [7, 8] 1).2.2.2 hok).2.2
        have h3 := h2 (exFrameSrc.withIdxCache [7, 8]) [7, 8] 0 rfl
        exact rfl⟩⟩

/-- C2 (as stated) is false: masking with full-extent selectors does NOT
return the identical partition object — the source returns
`self.__copy__()`, a distinct object (fresh identity) with the same
queue and caches. -/
theorem claim2_full_mask_cex :
    exPart.mask 1 (.slc sliceAll) (.slc sliceAll) ≠ exPart ∧
    (exPart.mask 1 (.slc sliceAll) (.slc sliceAll)).callQueue =
      exPart.callQueue := by
  decide

/-- C2 (amended): masking a partition with full-extent row and column
selectors returns a copy — a fresh object identical to the input except
for its identity — with no transform queued and the caches unchanged. -/
theorem claim2_full_mask_copy (p : Partition) (freshId : Nat)
    (rows cols : Sel) (hr : selFullExtent rows p.lenCache = true)
    (hc : selFullExtent cols p.widCache = true) :
    p.mask freshId rows cols = { p with pid := freshId } := by
  unfold Partition.mask
  rw [if_pos]
  exact ⟨by rw [hr], by rw [hc]⟩

/-- Concrete run of C2 (amended): a full-extent explicit-list row
selector plus `slice(None)` column selector gives back a copy of
`exPart` with queue and caches untouched. -/
theorem claim2_full_mask_copy_witness :
    exPart.mask 2 (.elems [0, 1, 2, 3, 4]) (.slc sliceAll) =
      { exPart with pid := 2 } :=
  claim2_full_mask_copy exPart 2 (.elems [0, 1, 2, 3, 4]) (.slc sliceAll)
    (by decide) (by decide)

/-- C4: when the common-ancestor search over the pure-projection chains
finds no shared ancestor, a frame-to-frame binary operation and a
column-wise concat both fail fast with the unsupported-operation error,
producing no result frame. -/
theorem claim4_no_common_base (self other : Frame) (nid nid2 : Nat)
    (opName : String) (fv : Option Lit) (jk : String) (srt ii : Bool)
    (h : Frame.findCommonBase self other = none) :
    self.binOp nid (.frameOp other) opName fv =
      .error (.notImplemented
        "unsupported binary op args (outer join is not supported)") ∧
    self.concatOp nid2 1 [other] jk srt ii =
      .error (.notImplemented
        "concat requiring join is not supported yet") := by
  constructor
  · unfold Frame.binOp
    dsimp only
    rw [h]
    rfl
  · unfold Frame.concatOp
    rw [if_neg (by decide)]
    simp only [List.foldlM, h]
    rfl

/-- Concrete run of C4: the unrelated source frames `exFrameA` and
`exFrameD` have no common projection ancestor, so both operations fail
with the unsupported-operation error. -/
theorem claim4_no_common_base_witness :
    exFrameA.binOp 10 (.frameOp exFrameD) "add" none =
      .error (.notImplemented
        "unsupported binary op args (outer join is not supported)") ∧
    exFrameA.concatOp 11 1 [exFrameD] "outer" false false =
      .error (.notImplemented
        "concat requiring join is not supported yet") :=
  claim4_no_common_base exFrameA exFrameD 10 11 "add" none "outer" false
    false rfl

theorem mapOk {α β : Type} {f : α → β} {e : Except Err α} {b : β}
    (h : f <$> e = .ok b) : ∃ a, e = .ok a ∧ f a = b := by
  cases e with
  | ok a =>
    refine ⟨a, rfl, ?_⟩
    simp [Functor.map, Except.map] at h
    exact h
  | error err => simp [Functor.map, Except.map] at h

theorem mapM_okLength {α β : Type} {f : α → Except Err β} :
    ∀ {l : List α} {l' : List β}, l.mapM f = .ok l' → l'.length = l.length := by
  intro l
  induction l with
  | nil =>
    intro l' h
    rw [List.mapM_nil] at h
    simp only [pure, Except.pure, Except.ok.injEq] at h
    simp [← h]
  | cons x xs ih =>
    intro l' h
    rw [List.mapM_cons] at h
    obtain ⟨y, hy, h2⟩ := bindOk h
    obtain ⟨ys, hys, h3⟩ := bindOk h2
    simp only [pure, Except.pure, Except.ok.injEq] at h3
    subst h3
    simp [ih hys]

theorem zip_snd_of_length_eq {α β : Type} :
    ∀ {l : List α} {r : List β}, l.length = r.length →
      (l.zip r).map Prod.snd = r := by
  intro l
  induction l with
  | nil =>
    intro r h
    cases r with
    | nil => rfl
    | cons y ys => simp at h
  | cons x xs ih =>
    intro r h
    cases r with
    | nil => simp at h
    | cons y ys =>
      simp only [List.zip_cons_cons, List.map_cons]
      rw [ih (by simpa using h)]

theorem seriesSelect_keys {m : List (String × DType)} :
    ∀ {ks : List String} {s : List (String × DType)},
      seriesSelect m ks = .ok s → s.map Prod.fst = ks := by
  intro ks
  induction ks with
  | nil =>
    intro s h
    unfold seriesSelect at h
    rw [List.mapM_nil] at h
    simp only [pure, Except.pure, Except.ok.injEq] at h
    simp [← h]
  | cons k ks ih =>
    intro s h
    unfold seriesSelect at h ih
    rw [List.mapM_cons] at h
    obtain ⟨y, hy, h2⟩ := bindOk h
    obtain ⟨ys, hys, h3⟩ := bindOk h2
    obtain ⟨dt, hdt, hyv⟩ := bindOk hy
    simp only [pure, Except.pure, Except.ok.injEq] at h3 hyv
    subst h3 hyv
    simp [ih hys]

/-- C5: a successful join with keys `keys` produces the column list
"keys once, then the left frame's non-key columns, then the right
frame's non-key columns", where the side-specific suffix is appended to
a non-key column exactly when its name occurs in both frames' column
sets; and the leading key dtypes are looked up in the left frame. -/
theorem claim5_join_schema (self other : Frame) (nid : Nat) (how : String)
    (keys : List String) (srt : Bool) (suf1 suf2 : String) (g : Frame)
    (hok : self.joinOp other nid how (some keys) srt suf1 suf2 = .ok g) :
    g.columnsL =
      keys ++
      (self.columnsL.filter (fun c => ¬ c ∈ keys)).map
        (fun c => if c ∈ other.columnsL then c ++ suf1 else c) ++
      (other.columnsL.filter (fun c => ¬ c ∈ keys)).map
        (fun c => if c ∈ self.columnsL then c ++ suf2 else c) ∧
    (∃ kd, seriesSelect self.dtypesL keys = .ok kd ∧
      (g.dtypesL.map Prod.snd).take keys.length = kd.map Prod.snd) := by
  unfold Frame.joinOp at hok
  simp only [bind, Except.bind, pure, Except.pure] at hok
  obtain ⟨u, hu, hok⟩ := bindOk hok
  obtain ⟨kd', hkd, hok⟩ := bindOk hok
  obtain ⟨ld, hld, hok⟩ := bindOk hok
  obtain ⟨rd, hrd, hok⟩ := bindOk hok
  obtain ⟨kd, hkdo, hkdv⟩ := mapOk hkd
  obtain ⟨hfid, hcols, hics, hopn, hparts, hidx⟩ := mkFrameC_okShape hok
  obtain ⟨hdts, hlen⟩ := mkFrameC_okDtypes hok
  constructor
  · rw [hcols]
    congr 1
    · congr 1
      apply List.map_congr_left
      intro c hcmem
      have hcs : c ∈ self.columnsL := (List.mem_filter.mp hcmem).1
      by_cases hco : c ∈ other.columnsL
      · rw [if_pos, if_pos hco]
        simp only [List.mem_filter, decide_eq_true_eq]
        exact ⟨hcs, hco⟩
      · rw [if_neg, if_neg hco]
        simp only [List.mem_filter, decide_eq_true_eq]
        exact fun hb => hco hb.2
    · apply List.map_congr_left
      intro c hcmem
      have hco : c ∈ other.columnsL := (List.mem_filter.mp hcmem).1
      by_cases hcs : c ∈ self.columnsL
      · rw [if_pos, if_pos hcs]
        simp only [List.mem_filter, decide_eq_true_eq]
        exact ⟨hcs, hco⟩
      · rw [if_neg, if_neg hcs]
        simp only [List.mem_filter, decide_eq_true_eq]
        exact fun hb => hcs hb.1
  · refine ⟨kd, hkdo, ?_⟩
    have h1 := seriesSelect_keys hkdo
    have hkdlen : kd.length = keys.length := by
      calc kd.length = (kd.map Prod.fst).length := by simp
        _ = keys.length := by rw [h1]
    have hkdvlen : kd'.length = keys.length := by
      rw [← hkdv]
      simp [hkdlen]
    have hmap : g.dtypesL.map Prod.snd = kd' ++ ld ++ rd := by
      rw [hdts]
      simp only [dtypesKeyed]
      apply zip_snd_of_length_eq
      simp only [DtypesArg.length] at hlen
      exact hlen.symm
    rw [hmap]
    rw [List.take_append_of_le_length (by simp [hkdvlen])]
    rw [List.take_append_of_le_length (by simp [hkdvlen])]
    rw [List.take_of_length_le (by simp [hkdvlen])]
    exact hkdv.symm

/-- C1: plan construction is pure plan building.  Every frame-level
operation that succeeds returns a new logical frame whose plan node wraps
the input frame(s) — the input frame itself is stored unchanged inside
the new node, so its own plan node, partitions and the queued-transform
state and caches of every one of its partitions are untouched — and the
new frame carries no partitions at all (no data was computed or moved;
only an explicit `_execute` populates partitions). -/
theorem claim1_plan_building_pure (f other byf : Frame) (nid : Nat)
    (ri rn : Option (List Int)) (ci : Option (List String))
    (cn : Option (List Nat)) (fv : FillValue) (axis : Option Int)
    (how : String) (keys : Option (List String)) (srt : Bool)
    (s1 s2 : String) (axg : Int) (agg : AggArg) (gargs : GroupbyArgs)
    (opName : String) (fvl : Option Lit) (others : List Frame)
    (jk : String) (ii : Bool) (g : Frame) :
    (f.maskOp nid ri rn ci cn = .ok g →
      (∃ cols, g.opn = .mask f ri rn cols) ∧ g.partsL = none) ∧
    (f.fillnaOp nid fv none axis none none = .ok g →
      (∃ ex, g.opn = .transform f ex true) ∧ g.partsL = none) ∧
    (f.dtYear nid = .ok g →
      (∃ ex, g.opn = .transform f ex true) ∧ g.partsL = none) ∧
    (f.joinOp other nid how keys srt s1 s2 = .ok g →
      (∃ ks, g.opn = .join f other how ks srt s1 s2) ∧ g.partsL = none) ∧
    (f.groupbyAggOp nid (.qc byf) axg agg gargs = .ok g →
      (∃ base gc ad, g.opn = .groupbyAgg base gc ad gargs) ∧
        g.partsL = none) ∧
    (f.binOp nid (.frameOp other) opName fvl = .ok g →
      (∃ base ex, g.opn = .transform base ex true) ∧ g.partsL = none) ∧
    (f.concatOp nid 1 others jk srt ii = .ok g →
      (∃ ex, g.opn = .transform f ex true) ∧ g.partsL = none) ∧
    (f.unionAll nid others jk srt ii = .ok g →
      (∃ fs, g.opn = .union fs) ∧ g.partsL = none) := by
  refine ⟨?_, ?_, ?_, ?_, ?_, ?_, ?_, ?_⟩
  · intro hok
    unfold Frame.maskOp at hok
    dsimp only at hok
    have hfin : ∀ cols, (do
        let dts ← dtypesForCols f.dtypesL f.indexColsL cols
        mkFrameC nid none none cols none none (DtypesArg.series dts)
          (some (OpNode.mask f ri rn cols)) f.indexColsL) = .ok g →
        (∃ cols2, g.opn = .mask f ri rn cols2) ∧ g.partsL = none := by
      intro cols hk
      obtain ⟨dts, -, hk⟩ := bindOk hk
      obtain ⟨-, -, -, hopn, hparts, -⟩ := mkFrameC_okShape hk
      exact ⟨⟨cols, hopn⟩, hparts⟩
    cases ci with
    | some ci0 => exact hfin ci0 hok
    | none =>
      cases cn with
      | some idxs =>
        obtain ⟨cols, -, hok⟩ := bindOk hok
        exact hfin cols hok
      | none => exact hfin f.columnsL hok
  · intro hok
    unfold Frame.fillnaOp at hok
    split at hok
    · exact absurd hok (by simp)
    rw [if_neg (by simp), if_neg (by simp), if_neg (by simp)] at hok
    cases fv with
    | dictV m =>
      dsimp only at hok
      obtain ⟨ex, -, hok⟩ := bindOk hok
      obtain ⟨dts, -, hok⟩ := bindOk hok
      obtain ⟨-, -, -, hopn, hparts, -⟩ := mkFrameC_okShape hok
      exact ⟨⟨ex, hopn⟩, hparts⟩
    | lit v =>
      dsimp only at hok
      split at hok
      · obtain ⟨ex, -, hok⟩ := bindOk hok
        obtain ⟨dts, -, hok⟩ := bindOk hok
        obtain ⟨-, -, -, hopn, hparts, -⟩ := mkFrameC_okShape hok
        exact ⟨⟨ex, hopn⟩, hparts⟩
      · exact absurd hok (by simp [bind, Except.bind])
  · intro hok
    unfold Frame.dtYear at hok
    obtain ⟨ex, -, hok⟩ := bindOk hok
    obtain ⟨dts, -, hok⟩ := bindOk hok
    obtain ⟨-, -, -, hopn, hparts, -⟩ := mkFrameC_okShape hok
    exact ⟨⟨ex, hopn⟩, hparts⟩
  · intro hok
    unfold Frame.joinOp at hok
    dsimp only at hok
    cases keys with
    | none => simp [throw, throwThe, MonadExceptOf.throw, bind, Except.bind, pure, Except.pure] at hok
    | some ks =>
      obtain ⟨onL, -, hok⟩ := bindOk hok
      obtain ⟨u, -, hok⟩ := bindOk hok
      obtain ⟨kd, -, hok⟩ := bindOk hok
      obtain ⟨ld, -, hok⟩ := bindOk hok
      obtain ⟨rd, -, hok⟩ := bindOk hok
      obtain ⟨-, -, -, hopn, hparts, -⟩ := mkFrameC_okShape hok
      exact ⟨⟨onL, hopn⟩, hparts⟩
  · intro hok
    unfold Frame.groupbyAggOp at hok
    dsimp only at hok
    split at hok
    · exact absurd hok (by simp)
    obtain ⟨base, -, hok⟩ := bindOk hok
    split at hok
    · exact absurd hok (by simp)
    split at hok
    · exact absurd hok (by simp)
    split at hok
    · exact absurd hok (by simp)
    obtain ⟨gbd, -, hok⟩ := bindOk hok
    cases agg with
    | strA a =>
      obtain ⟨dts, -, hok⟩ := bindOk hok
      obtain ⟨y, -, hok⟩ := bindOk hok
      obtain ⟨-, -, -, hopn, hparts, -⟩ := mkFrameC_okShape hok
      exact ⟨⟨base, byf.columnsL, y.1, hopn⟩, hparts⟩
    | dictA m =>
      obtain ⟨colsDts, -, hok⟩ := bindOk hok
      obtain ⟨y, -, hok⟩ := bindOk hok
      obtain ⟨-, -, -, hopn, hparts, -⟩ := mkFrameC_okShape hok
      exact ⟨⟨base, byf.columnsL, y.1, hopn⟩, hparts⟩
    | otherA =>
      obtain ⟨y, hy, -⟩ := bindOk hok
      exact absurd hy (by simp [throw, throwThe, MonadExceptOf.throw])
  · intro hok
    unfold Frame.binOp at hok
    dsimp only at hok
    cases hb : f.findCommonBase other with
    | none =>
      rw [hb] at hok
      exact absurd hok (by simp [bind, Except.bind, throw, throwThe,
        MonadExceptOf.throw])
    | some b =>
      rw [hb] at hok
      dsimp only at hok
      obtain ⟨base, -, hok⟩ := bindOk hok
      obtain ⟨ex, -, hok⟩ := bindOk hok
      obtain ⟨exT, -, hok⟩ := bindOk hok
      obtain ⟨dts, -, hok⟩ := bindOk hok
      obtain ⟨-, -, -, hopn, hparts, -⟩ := mkFrameC_okShape hok
      exact ⟨⟨base, exT, hopn⟩, hparts⟩
  · intro hok
    unfold Frame.concatOp at hok
    rw [if_neg (by decide)] at hok
    obtain ⟨base, -, hok⟩ := bindOk hok
    obtain ⟨e0, -, hok⟩ := bindOk hok
    obtain ⟨e1, -, hok⟩ := bindOk hok
    obtain ⟨ex, -, hok⟩ := bindOk hok
    obtain ⟨dts, -, hok⟩ := bindOk hok
    obtain ⟨-, -, -, hopn, hparts, -⟩ := mkFrameC_okShape hok
    exact ⟨⟨ex, hopn⟩, hparts⟩
  · intro hok
    unfold Frame.unionAll at hok
    obtain ⟨m0, -, hok⟩ := bindOk hok
    obtain ⟨ncm, -, hok⟩ := bindOk hok
    dsimp only at hok
    split at hok <;>
      (obtain ⟨nd, -, hok⟩ := bindOk hok
       obtain ⟨al, -, hok⟩ := bindOk hok
       cases al with
       | nil =>
         exact absurd hok (by simp [throw, throwThe, MonadExceptOf.throw])
       | cons a0 rest =>
         obtain ⟨-, -, -, hopn, hparts, -⟩ := mkFrameC_okShape hok
         exact ⟨⟨a0 :: rest, hopn⟩, hparts⟩)

/-- Concrete runs of C1: each operation's result wraps the untouched
input frame in a fresh non-Source plan node and carries no partitions. -/
theorem claim1_plan_building_pure_witness :
    ((∃ cols, exMaskRes.opn = .mask exFrameA none none cols) ∧
      exMaskRes.partsL = none) ∧
    ((∃ ex, exFillnaRes.opn = .transform exFrameA ex true) ∧
      exFillnaRes.partsL = none) ∧
    ((∃ ex, exDtYearRes.opn = .transform exFrameA ex true) ∧
      exDtYearRes.partsL = none) ∧
    ((∃ ks, exJoinRes.opn =
        .join exFrameKeyL exFrameKeyR "inner" ks false "_x" "_y") ∧
      exJoinRes.partsL = none) ∧
    ((∃ base gc ad, exGroupbyRes.opn = .groupbyAgg base gc ad ⟨none, true⟩) ∧
      exGroupbyRes.partsL = none) ∧
    ((∃ base ex, exBinOpRes.opn = .transform base ex true) ∧
      exBinOpRes.partsL = none) ∧
    ((∃ ex, exConcatRes.opn = .transform exFrameB ex true) ∧
      exConcatRes.partsL = none) ∧
    ((∃ fs, exUnionRes.opn = .union fs) ∧ exUnionRes.partsL = none) :=
  ⟨(claim1_plan_building_pure exFrameA exFrameA exFrameA 10 none none
      (some ["a"]) none (.lit (.intV 0)) (some 0) "inner" none false "" ""
      0 (.strA "sum") ⟨none, true⟩ "add" none [] "outer" false
      exMaskRes).1 rfl,
   (claim1_plan_building_pure exFrameA exFrameA exFrameA 10 none none
      (some ["a"]) none (.lit (.intV 0)) (some 0) "inner" none false "" ""
      0 (.strA "sum") ⟨none, true⟩ "add" none [] "outer" false
      exFillnaRes).2.1 rfl,
   (claim1_plan_building_pure exFrameA exFrameA exFrameA 10 none none
      (some ["a"]) none (.lit (.intV 0)) (some 0) "inner" none false "" ""
      0 (.strA "sum") ⟨none, true⟩ "add" none [] "outer" false
      exDtYearRes).2.2.1 rfl,
   (claim1_plan_building_pure exFrameKeyL exFrameKeyR exFrameA 10 none none
      none none (.lit (.intV 0)) (some 0) "inner" (some ["k"]) false "_x"
      "_y" 0 (.strA "sum") ⟨none, true⟩ "add" none [] "outer" false
      exJoinRes).2.2.2.1 rfl,
   (claim1_plan_building_pure exFrameA exFrameA exFrameB 10 none none
      none none (.lit (.intV 0)) (some 0) "inner" none false "" "" 0
      (.strA "sum") ⟨none, true⟩ "add" none [] "outer" false
      exGroupbyRes).2.2.2.2.1 rfl,
   (claim1_plan_building_pure exFrameB exFrameC exFrameA 10 none none
      none none (.lit (.intV 0)) (some 0) "inner" none false "" "" 0
      (.strA "sum") ⟨none, true⟩ "add" none [] "outer" false
      exBinOpRes).2.2.2.2.2.1 rfl,
   (claim1_plan_building_pure exFrameB exFrameC exFrameA 10 none none
      none none (.lit (.intV 0)) (some 0) "inner" none false "" "" 0
      (.strA "sum") ⟨none, true⟩ "add" none [exFrameC] "outer" false
      exConcatRes).2.2.2.2.2.2.1 rfl,
   (claim1_plan_building_pure exFrameA exFrameA exFrameA 10 none none
      none none (.lit (.intV 0)) (some 0) "inner" none false "" "" 0
      (.strA "sum") ⟨none, true⟩ "add" none [exFrameD] "outer" false
      exUnionRes).2.2.2.2.2.2.2 rfl⟩

/-- Concrete run of C5: joining the frames with columns `k, x` and
`k, x, y` on `k` yields exactly `k` once, `x_x` and `x_y` for the
colliding non-key name `x`, and unsuffixed `y`. -/
theorem claim5_join_schema_witness :
    exJoinRes.columnsL = ["k", "x_x", "x_y", "y"] ∧
    exJoinRes.columnsL.count "k" = 1 :=
  ⟨((claim5_join_schema exFrameKeyL exFrameKeyR 10 "inner" ["k"] false "_x"
      "_y" exJoinRes rfl).1).trans (by decide),
   by
    have h := (claim5_join_schema exFrameKeyL exFrameKeyR 10 "inner" ["k"]
      false "_x" "_y" exJoinRes rfl).1
    rw [h]
    decide⟩


/-- The names produced by the per-column aggregate loop: `k` for a single
aggregate, `"<k> <agg>"` per entry for a list of aggregates. -/
theorem gbDictFold_names (self : Frame) :
    ∀ (m : List (String × AggDesc)) (acc : List String × List DType)
      (r : List String × List DType), gbDictFold self acc m = .ok r →
      r.1 = acc.1 ++ m.flatMap (fun p =>
        match p.2 with
        | .single _ => [p.1]
        | .multi items => items.map (fun it => p.1 ++ " " ++ it)) := by
  intro m
  induction m with
  | nil =>
    intro acc r h
    unfold gbDictFold at h
    simp only [List.foldlM_nil, pure, Except.pure, Except.ok.injEq] at h
    subst h
    simp
  | cons p ps ih =>
    intro acc r h
    unfold gbDictFold at h ih
    rw [List.foldlM_cons] at h
    obtain ⟨acc', hstep, hrest⟩ := bindOk h
    have hacc1 : acc'.1 = acc.1 ++
        (match p.2 with
         | .single _ => [p.1]
         | .multi items => items.map (fun it => p.1 ++ " " ++ it)) := by
      cases hpd : p.2 with
      | multi items =>
        rw [hpd] at hstep
        obtain ⟨dts, -, hstep⟩ := bindOk hstep
        simp only [pure, Except.pure, Except.ok.injEq] at hstep
        rw [← hstep]
      | single v =>
        rw [hpd] at hstep
        obtain ⟨sg, -, hstep⟩ := bindOk hstep
        obtain ⟨dt, -, hstep⟩ := bindOk hstep
        simp only [pure, Except.pure, Except.ok.injEq] at hstep
        rw [← hstep]
    rw [ih acc' r hrest, hacc1]
    simp [List.append_assoc]

/-- C7: a successful group-by aggregation places the group keys first —
as designated index columns when `as_index` is set, else as leading
output columns — followed by the aggregated columns.  A string aggregate
produces one output column per non-key column of `self`, with the key
dtypes looked up in the shared base frame and each aggregated dtype
derived by the aggregate-keyed promotion table `aggDtype`; a per-column
mapping produces `k` for a single aggregate and one column named
"<col> <agg>" per entry of a list aggregate; and the promotion table
sends count to integer dtype and mean over an integer column to float
dtype. -/
theorem claim7_groupby_schema (self byf : Frame) (nid : Nat) (agg : AggArg)
    (gargs : GroupbyArgs) (g : Frame)
    (hok : self.groupbyAggOp nid (.qc byf) 0 agg gargs = .ok g) :
    (g.indexColsL = if gargs.asIndex then some byf.columnsL else none) ∧
    (∀ a, agg = .strA a →
      g.columnsL = (if gargs.asIndex then [] else byf.columnsL) ++
        self.columnsL.filter (fun c => ¬ c ∈ byf.columnsL) ∧
      ∃ base gbsel aggd,
        byf.opn.input0 = .ok base ∧
        seriesSelect base.dtypesL byf.columnsL = .ok gbsel ∧
        (self.columnsL.filter (fun c => ¬ c ∈ byf.columnsL)).mapM
          (fun c => do aggDtype a (← seriesGet self.dtypesL c)) = .ok aggd ∧
        g.dtypesL.map Prod.snd = gbsel.map Prod.snd ++ aggd) ∧
    (∀ m, agg = .dictA m →
      g.columnsL = (if gargs.asIndex then [] else byf.columnsL) ++
        m.flatMap (fun p =>
          match p.2 with
          | .single _ => [p.1]
          | .multi items => items.map (fun it => p.1 ++ " " ++ it))) ∧
    (∀ dt, aggDtype "count" dt = .ok .int64) ∧
    aggDtype "mean" .int64 = .ok .float64 := by
  have hcount : ∀ dt, aggDtype "count" dt = .ok .int64 := by
    intro dt
    simp [aggDtype]
  have hmean : aggDtype "mean" .int64 = .ok .float64 := by simp [aggDtype]
  unfold Frame.groupbyAggOp at hok
  dsimp only at hok
  split at hok
  case isTrue hax => exact absurd rfl hax
  obtain ⟨base, hbase, hok⟩ := bindOk hok
  split at hok
  · exact absurd hok (by simp)
  split at hok
  · exact absurd hok (by simp)
  split at hok
  · exact absurd hok (by simp)
  obtain ⟨gbd, hgbd, hok⟩ := bindOk hok
  obtain ⟨gbsel, hgbsel, hgbv⟩ := mapOk hgbd
  cases agg with
  | strA a =>
    obtain ⟨aggd, haggd, hok⟩ := bindOk hok
    obtain ⟨y, hy, hok⟩ := bindOk hok
    simp only [pure, Except.pure, Except.ok.injEq] at hy
    subst hy
    obtain ⟨-, hcols, hics, -, -, -⟩ := mkFrameC_okShape hok
    obtain ⟨hdts, hlen⟩ := mkFrameC_okDtypes hok
    refine ⟨by rw [hics], ?_, ?_, hcount, hmean⟩
    swap
    · intro m hm
      cases hm
    intro a' ha
    injection ha with ha
    subst ha
    refine ⟨by rw [hcols], base, gbsel, aggd, hbase, hgbsel, haggd, ?_⟩
    rw [hdts]
    simp only [dtypesKeyed]
    rw [zip_snd_of_length_eq]
    · rw [← hgbv]
    · simp only [DtypesArg.length] at hlen
      exact hlen.symm
  | dictA m =>
    obtain ⟨colsDts, hcd, hok⟩ := bindOk hok
    obtain ⟨y, hy, hok⟩ := bindOk hok
    simp only [pure, Except.pure, Except.ok.injEq] at hy
    subst hy
    obtain ⟨-, hcols, hics, -, -, -⟩ := mkFrameC_okShape hok
    refine ⟨by rw [hics], ?_, ?_, hcount, hmean⟩
    · intro a ha
      cases ha
    intro m' hm
    injection hm with hm
    subst hm
    rw [hcols]
    have hnames := gbDictFold_names self m ([], []) colsDts hcd
    simp only [List.nil_append] at hnames
    rw [hnames]
  | otherA =>
    obtain ⟨y, hy, -⟩ := bindOk hok
    exact absurd hy (by simp [throw, throwThe, MonadExceptOf.throw])

/-- Concrete runs of C7: grouping `exFrameA` (columns `a`, `b`) by the
projection onto `a` with `as_index=True` and aggregate `"sum"` puts `a`
into the index columns and aggregates `b`; the dict aggregate
`b ↦ [count, mean]` produces columns `"b count", "b mean"` whose dtypes
follow the promotion table (count → integer, mean on integer → float). -/
theorem claim7_groupby_schema_witness :
    exGroupbyRes.indexColsL = some ["a"] ∧
    exGroupbyRes.columnsL = ["b"] ∧
    exGroupbyDictRes.columnsL = ["b count", "b mean"] ∧
    exGroupbyDictRes.dtypesL.map Prod.snd =
      [DType.int64, DType.int64, DType.float64] := by
  have h1 := claim7_groupby_schema exFrameA exFrameB 10 (.strA "sum")
    ⟨none, true⟩ exGroupbyRes rfl
  have h2 := claim7_groupby_schema exFrameA exFrameB 10
    (.dictA [("b", .multi ["count", "mean"])]) ⟨none, true⟩
    exGroupbyDictRes rfl
  refine ⟨h1.1.trans (by decide), ?_, ?_, by decide⟩
  · exact ((h1.2.1 "sum" rfl).1).trans (by decide)
  · exact (h2.2.2.1 [("b", .multi ["count", "mean"])] rfl).trans (by decide)

/-- C8 (as stated) is false on one precondition: when the `by` operand's
plan node is a Source node — so `by` is certainly not a pure projection
of an ancestor shared with `self` — `groupby_agg` evaluates
`by._modin_frame._op.input[0]` on a node with no inputs and fails with a
lookup error, not with the engine's unsupported-operation error. -/
theorem claim8_groupby_errors_cex :
    exFrameA.groupbyAggOp 11 (.qc exFrameA) 0 (.strA "sum") ⟨none, true⟩ =
      .error .indexError ∧
    resultIsNotImpl
      (exFrameA.groupbyAggOp 11 (.qc exFrameA) 0 (.strA "sum")
        ⟨none, true⟩) = false :=
  ⟨rfl, rfl⟩

/-- C8 (amended): `groupby_agg` raises before constructing any result
frame whenever a precondition is violated — with the
unsupported-operation error for a non-query-compiler `by`, a non-zero
axis, a specified group level, or a failing direct-projection check when
the `by` operand's plan node has an input; but with a lookup error (not
an unsupported-operation error) when `by`'s plan node is a Source node.
Conversely a successful call implies every precondition held. -/
theorem claim8_groupby_errors (f byf : Frame) (nid : Nat) (axis : Int)
    (agg : AggArg) (gargs : GroupbyArgs) (base g : Frame) :
    (f.groupbyAggOp nid .notQc axis agg gargs =
      .error (.notImplemented "unsupported groupby args")) ∧
    (axis ≠ 0 → f.groupbyAggOp nid (.qc byf) axis agg gargs =
      .error (.notImplemented "groupby is supported for axis = 0 only")) ∧
    (byf.opn = .source →
      f.groupbyAggOp nid (.qc byf) 0 agg gargs = .error .indexError) ∧
    (byf.opn.input0 = .ok base → byf.isProjectionOf base = false →
      f.groupbyAggOp nid (.qc byf) 0 agg gargs =
        .error (.notImplemented "unsupported groupby args")) ∧
    (byf.opn.input0 = .ok base → byf.isProjectionOf base = true →
      f.fid ≠ base.fid → f.isProjectionOf base = false →
      f.groupbyAggOp nid (.qc byf) 0 agg gargs =
        .error (.notImplemented "unsupported groupby args")) ∧
    (byf.opn.input0 = .ok base → byf.isProjectionOf base = true →
      (f.fid = base.fid ∨ f.isProjectionOf base = true) →
      gargs.level ≠ none →
      f.groupbyAggOp nid (.qc byf) 0 agg gargs =
        .error (.notImplemented "levels are not supported for groupby")) ∧
    (f.groupbyAggOp nid (.qc byf) axis agg gargs = .ok g →
      axis = 0 ∧ gargs.level = none ∧
      ∃ base2, byf.opn.input0 = .ok base2 ∧
        byf.isProjectionOf base2 = true ∧
        (f.fid = base2.fid ∨ f.isProjectionOf base2 = true)) := by
  refine ⟨rfl, ?_, ?_, ?_, ?_, ?_, ?_⟩
  · intro hax
    unfold Frame.groupbyAggOp
    dsimp only
    rw [if_pos hax]
  · intro hbs
    unfold Frame.groupbyAggOp
    dsimp only
    rw [if_neg (by decide)]
    rw [show byf.opn.input0 = Except.error Err.indexError from by
      rw [hbs]; rfl]
    rfl
  · intro hinp hproj
    unfold Frame.groupbyAggOp
    dsimp only
    rw [if_neg (by decide), hinp]
    show (if ¬ byf.isProjectionOf base then _ else _) = _
    rw [if_pos (by simp [hproj])]
  · intro hinp hproj hfid hfproj
    unfold Frame.groupbyAggOp
    dsimp only
    rw [if_neg (by decide), hinp]
    show (if ¬ byf.isProjectionOf base then _
          else if f.fid ≠ base.fid ∧ ¬ f.isProjectionOf base then _
          else _) = _
    rw [if_neg (by simp [hproj]), if_pos (by simp [hfid, hfproj])]
  · intro hinp hproj hok hlev
    unfold Frame.groupbyAggOp
    dsimp only
    rw [if_neg (by decide), hinp]
    show (if ¬ byf.isProjectionOf base then _
          else if f.fid ≠ base.fid ∧ ¬ f.isProjectionOf base then _
          else if gargs.level ≠ none then _
          else _) = _
    rw [if_neg (by simp [hproj]), if_neg ?hc, if_pos hlev]
    case hc =>
      rcases hok with h | h
      · intro hcon
        exact hcon.1 h
      · intro hcon
        exact hcon.2 (by simp [h])
  · intro hok
    unfold Frame.groupbyAggOp at hok
    dsimp only at hok
    split at hok
    case isTrue hax => exact absurd hok (by simp)
    case isFalse hax =>
      obtain ⟨base2, hbase2, hok⟩ := bindOk hok
      split at hok
      · exact absurd hok (by simp)
      case isFalse h1 =>
        split at hok
        · exact absurd hok (by simp)
        case isFalse h2 =>
          split at hok
          · exact absurd hok (by simp)
          case isFalse h3 =>
            refine ⟨by omega, by simpa using h3, base2, hbase2, ?_, ?_⟩
            · simpa using h1
            · by_cases hf : f.fid = base2.fid
              · exact Or.inl hf
              · right
                rcases not_and_or.mp h2 with h | h
                · exact absurd hf (by simpa using h)
                · simpa using h

/-- Concrete runs of C8 (amended): each violated precondition raises its
error before any frame is constructed — including the Source-`by` case
raising the lookup error. -/
theorem claim8_groupby_errors_witness :
    exFrameA.groupbyAggOp 11 .notQc 0 (.strA "sum") ⟨none, true⟩ =
      .error (.notImplemented "unsupported groupby args") ∧
    exFrameA.groupbyAggOp 11 (.qc exFrameB) 1 (.strA "sum") ⟨none, true⟩ =
      .error (.notImplemented "groupby is supported for axis = 0 only") ∧
    exFrameA.groupbyAggOp 11 (.qc exFrameA) 0 (.strA "sum") ⟨none, true⟩ =
      .error .indexError ∧
    exFrameA.groupbyAggOp 11 (.qc exFrameB) 0 (.strA "sum")
        ⟨some 0, true⟩ =
      .error (.notImplemented "levels are not supported for groupby") := by
  have h := claim8_groupby_errors exFrameA exFrameB 11 1 (.strA "sum")
    ⟨none, true⟩ exFrameA exFrameA
  have h2 := claim8_groupby_errors exFrameA exFrameA 11 0 (.strA "sum")
    ⟨none, true⟩ exFrameA exFrameA
  have h3 := claim8_groupby_errors exFrameA exFrameB 11 0 (.strA "sum")
    ⟨some 0, true⟩ exFrameA exFrameA
  exact ⟨h2.1, h.2.1 (by decide), h2.2.2.1 rfl,
    h3.2.2.2.2.2.1 rfl rfl (Or.inl rfl) (by decide)⟩

/-! ### Ordered-dict lemmas for the union schema -/

theorem odAny_iff_memKeys {α : Type} (m : List (String × α)) (k : String) :
    (m.any (fun p => p.1 = k)) = true ↔ k ∈ m.map Prod.fst := by
  rw [List.any_eq_true]
  simp only [List.mem_map, decide_eq_true_eq]

theorem find_map_self {α : Type} (m : List (String × α)) (k : String)
    (v : α) (h : m.any (fun p => p.1 = k) = true) :
    (m.map (fun p => if p.1 = k then (k, v) else p)).find?
      (fun p => p.1 = k) = some (k, v) := by
  induction m with
  | nil => simp at h
  | cons p ps ih =>
    by_cases hp : p.1 = k
    · simp only [List.map_cons, if_pos hp]
      rw [List.find?_cons_of_pos _ (by simp)]
    · have h2 : ps.any (fun q => q.1 = k) = true := by
        simp only [List.any_cons] at h
        rcases Bool.or_eq_true_iff.mp h with hh | hh
        · exact absurd (by simpa using hh) hp
        · exact hh
      simp only [List.map_cons, if_neg hp]
      rw [List.find?_cons_of_neg _ (by simpa using hp)]
      exact ih h2

theorem find_map_other {α : Type} (m : List (String × α)) (k k2 : String)
    (v : α) (h : k ≠ k2) :
    (m.map (fun p => if p.1 = k2 then (k2, v) else p)).find?
      (fun p => p.1 = k) = m.find? (fun p => p.1 = k) := by
  induction m with
  | nil => rfl
  | cons p ps ih =>
    by_cases hp : p.1 = k2
    · simp only [List.map_cons, if_pos hp]
      rw [List.find?_cons_of_neg _
          (by simp only [decide_eq_true_eq]; exact fun he => h he.symm),
        List.find?_cons_of_neg _
          (by simp only [decide_eq_true_eq, hp]; exact fun he => h he.symm)]
      exact ih
    · simp only [List.map_cons, if_neg hp]
      by_cases hpk : p.1 = k
      · rw [List.find?_cons_of_pos _ (by simpa using hpk),
          List.find?_cons_of_pos _ (by simpa using hpk)]
      · rw [List.find?_cons_of_neg _ (by simpa using hpk),
          List.find?_cons_of_neg _ (by simpa using hpk)]
        exact ih

theorem find_append_absent {α : Type} (m : List (String × α)) (k : String)
    (v : α) (h : m.any (fun p => p.1 = k) = false) :
    (m ++ [(k, v)]).find? (fun p => p.1 = k) = some (k, v) := by
  rw [List.find?_append]
  have hnone : m.find? (fun p => p.1 = k) = none := by
    rw [List.find?_eq_none]
    exact List.any_eq_false.mp h
  rw [hnone]
  rw [List.find?_cons_of_pos _ (by simp)]
  rfl

theorem odGet_odInsert_self {α : Type} (m : List (String × α)) (k : String)
    (v : α) : odGet (odInsert m k v) k = some v := by
  unfold odInsert odGet
  by_cases hany : m.any (fun p => p.1 = k) = true
  · rw [if_pos hany, find_map_self m k v hany]
    rfl
  · rw [Bool.not_eq_true] at hany
    rw [if_neg (by rw [hany]; exact Bool.false_ne_true),
      find_append_absent m k v hany]
    rfl

theorem odGet_odInsert_ne {α : Type} (m : List (String × α)) (k k2 : String)
    (v : α) (h : k ≠ k2) : odGet (odInsert m k2 v) k = odGet m k := by
  unfold odInsert odGet
  split
  · rw [find_map_other m k k2 v h]
  · rw [List.find?_append]
    have h2 : List.find? (fun p => p.1 = k) [(k2, v)] = none := by
      rw [List.find?_eq_none]
      intro x hx
      simp only [List.mem_singleton] at hx
      subst hx
      simp only [decide_eq_true_eq]
      exact fun he => h he.symm
    rw [h2]
    cases List.find? (fun p => p.1 = k) m <;> rfl

theorem odInsert_keys {α : Type} (m : List (String × α)) (k : String)
    (v : α) :
    (odInsert m k v).map Prod.fst = insAbsent (m.map Prod.fst) k := by
  unfold odInsert insAbsent
  by_cases hany : m.any (fun p => p.1 = k) = true
  · rw [if_pos hany, if_pos ((odAny_iff_memKeys m k).mp hany)]
    rw [List.map_map]
    apply List.map_congr_left
    intro p hp
    by_cases hpk : p.1 = k
    · simp [Function.comp, hpk]
    · simp [Function.comp, hpk]
  · rw [Bool.not_eq_true] at hany
    rw [if_neg (by rw [hany]; exact Bool.false_ne_true),
      if_neg (fun hmem => by
        rw [(odAny_iff_memKeys m k).mpr hmem] at hany
        cases hany)]
    simp

theorem odHas_true_iff {α : Type} (m : List (String × α)) (k : String) :
    odHas m k = true ↔ k ∈ m.map Prod.fst := odAny_iff_memKeys m k

theorem mem_insAbsent (acc : List String) (x c : String) :
    c ∈ insAbsent acc x ↔ c = x ∨ c ∈ acc := by
  unfold insAbsent
  split
  case isTrue hx =>
    constructor
    · exact fun h => Or.inr h
    · rintro (h | h)
      · rw [h]; exact hx
      · exact h
  case isFalse hx =>
    rw [List.mem_append, List.mem_singleton]
    tauto

theorem mem_foldl_insAbsent :
    ∀ (l : List String) (acc : List String) (c : String),
      c ∈ l.foldl insAbsent acc ↔ c ∈ acc ∨ c ∈ l := by
  intro l
  induction l with
  | nil => simp
  | cons x xs ih =>
    intro acc c
    rw [List.foldl_cons, ih, mem_insAbsent]
    simp only [List.mem_cons]
    tauto

theorem mem_insertSorted (x c : String) :
    ∀ l : List String, c ∈ insertSorted x l ↔ c = x ∨ c ∈ l := by
  intro l
  induction l with
  | nil => simp [insertSorted]
  | cons y ys ih =>
    unfold insertSorted
    split
    · simp only [List.mem_cons, ih]
      tauto
    · simp only [List.mem_cons]
      try tauto

theorem mem_pySorted_aux :
    ∀ (l acc : List String) (c : String),
      c ∈ l.foldl (fun acc x => insertSorted x acc) acc ↔ c ∈ acc ∨ c ∈ l := by
  intro l
  induction l with
  | nil => simp
  | cons x xs ih =>
    intro acc c
    rw [List.foldl_cons, ih, mem_insertSorted]
    simp only [List.mem_cons]
    tauto

theorem mem_pySorted (l : List String) (c : String) :
    c ∈ pySorted l ↔ c ∈ l := by
  unfold pySorted
  rw [mem_pySorted_aux]
  simp

/-- Keys of the dtype-collecting fold that seeds the union's column map
with `self`'s columns. -/
theorem unionM0_keys (dts : List (String × DType)) :
    ∀ (l : List String) (init : List (String × DType))
      (r : List (String × DType)),
      l.foldlM (fun m c => do
        pure (odInsert m c (← seriesGet dts c))) init = .ok r →
      r.map Prod.fst = l.foldl insAbsent (init.map Prod.fst) := by
  intro l
  induction l with
  | nil =>
    intro init r h
    simp only [List.foldlM_nil, pure, Except.pure, Except.ok.injEq] at h
    rw [← h]
    rfl
  | cons c cs ih =>
    intro init r h
    rw [List.foldlM_cons] at h
    obtain ⟨m2, hstep, hrest⟩ := bindOk h
    obtain ⟨dt, -, hp⟩ := bindOk hstep
    simp only [pure, Except.pure, Except.ok.injEq] at hp
    subst hp
    rw [ih _ r hrest, odInsert_keys, List.foldl_cons]

/-- Keys after folding one frame's columns into the map in outer mode:
append-if-absent. -/
theorem unionOuter_keys (fdts : List (String × DType)) :
    ∀ (l : List String) (init : List (String × DType))
      (r : List (String × DType)),
      l.foldlM (fun m2 c =>
        if odHas m2 c then pure m2
        else do pure (m2 ++ [(c, ← seriesGet fdts c)])) init = .ok r →
      r.map Prod.fst = l.foldl insAbsent (init.map Prod.fst) := by
  intro l
  induction l with
  | nil =>
    intro init r h
    simp only [List.foldlM_nil, pure, Except.pure, Except.ok.injEq] at h
    rw [← h]
    rfl
  | cons c cs ih =>
    intro init r h
    rw [List.foldlM_cons] at h
    obtain ⟨m2, hstep, hrest⟩ := bindOk h
    rw [ih _ r hrest, List.foldl_cons]
    congr 1
    split at hstep
    case isTrue hhas =>
      simp only [pure, Except.pure, Except.ok.injEq] at hstep
      subst hstep
      unfold insAbsent
      rw [if_pos ((odHas_true_iff init c).mp hhas)]
    case isFalse hhas =>
      obtain ⟨dt, -, hp⟩ := bindOk hstep
      simp only [pure, Except.pure, Except.ok.injEq] at hp
      subst hp
      unfold insAbsent
      rw [if_neg (fun hmem => hhas ((odHas_true_iff init c).mpr hmem))]
      simp

/-- Keys after the whole schema-reconciliation fold over the other frames
in outer mode: union in first-occurrence order. -/
theorem unionOthers_keys (jk : String) (hjk : jk ≠ "inner") :
    ∀ (fs : List Frame) (init : List (String × DType))
      (r : List (String × DType)),
      fs.foldlM (fun m f =>
        if jk = "inner" then
          pure (m.filter (fun p => p.1 ∈ f.columnsL))
        else
          f.columnsL.foldlM (fun m2 c =>
            if odHas m2 c then pure m2
            else do pure (m2 ++ [(c, ← seriesGet f.dtypesL c)])) m) init =
        .ok r →
      r.map Prod.fst =
        fs.foldl (fun acc f => f.columnsL.foldl insAbsent acc)
          (init.map Prod.fst) := by
  intro fs
  induction fs with
  | nil =>
    intro init r h
    simp only [List.foldlM_nil, pure, Except.pure, Except.ok.injEq] at h
    rw [← h]
    rfl
  | cons f fs ih =>
    intro init r h
    rw [List.foldlM_cons] at h
    obtain ⟨m2, hstep, hrest⟩ := bindOk h
    rw [if_neg hjk] at hstep
    rw [ih _ r hrest, List.foldl_cons, unionOuter_keys f.dtypesL _ _ _ hstep]

/-- Key membership after the schema-reconciliation fold in inner mode:
the iterated intersection with every other frame's columns. -/
theorem unionInner_mem :
    ∀ (fs : List Frame) (init : List (String × DType))
      (r : List (String × DType)),
      fs.foldlM (fun m f =>
        if "inner" = "inner" then
          pure (m.filter (fun p => p.1 ∈ f.columnsL))
        else
          f.columnsL.foldlM (fun m2 c =>
            if odHas m2 c then pure m2
            else do pure (m2 ++ [(c, ← seriesGet f.dtypesL c)])) m) init =
        .ok r →
      ∀ c, c ∈ r.map Prod.fst ↔
        (c ∈ init.map Prod.fst ∧ ∀ f ∈ fs, c ∈ f.columnsL) := by
  intro fs
  induction fs with
  | nil =>
    intro init r h c
    simp only [List.foldlM_nil, pure, Except.pure, Except.ok.injEq] at h
    rw [← h]
    simp
  | cons f fs ih =>
    intro init r h c
    rw [List.foldlM_cons] at h
    obtain ⟨m2, hstep, hrest⟩ := bindOk h
    rw [if_pos rfl] at hstep
    simp only [pure, Except.pure, Except.ok.injEq] at hstep
    subst hstep
    rw [ih _ r hrest c]
    simp only [List.mem_map, List.mem_filter, List.mem_cons,
      decide_eq_true_eq]
    constructor
    · rintro ⟨⟨p, ⟨hp, hpc⟩, hpf⟩, hall⟩
      subst hpf
      exact ⟨⟨p, hp, rfl⟩, fun f2 hf2 => by
        rcases hf2 with h2 | h2
        · rw [h2]
          exact hpc
        · exact hall f2 h2⟩
    · rintro ⟨⟨p, hp, hpf⟩, hall⟩
      subst hpf
      exact ⟨⟨p, ⟨hp, hall f (Or.inl rfl)⟩, rfl⟩,
        fun f2 hf2 => hall f2 (Or.inr hf2)⟩

theorem mapM_memOk {α β : Type} {f : α → Except Err β} :
    ∀ {l : List α} {l2 : List β}, l.mapM f = .ok l2 →
      ∀ b ∈ l2, ∃ a ∈ l, f a = .ok b := by
  intro l
  induction l with
  | nil =>
    intro l2 h b hb
    rw [List.mapM_nil] at h
    simp only [pure, Except.pure, Except.ok.injEq] at h
    rw [← h] at hb
    cases hb
  | cons x xs ih =>
    intro l2 h b hb
    rw [List.mapM_cons] at h
    obtain ⟨y, hy, h2⟩ := bindOk h
    obtain ⟨ys, hys, h3⟩ := bindOk h2
    simp only [pure, Except.pure, Except.ok.injEq] at h3
    rw [← h3] at hb
    rcases List.mem_cons.mp hb with hbv | hbv
    · exact ⟨x, List.mem_cons_self x xs, by rw [← hbv] at hy; exact hy⟩
    · obtain ⟨a, ha, hfa⟩ := ih hys b hbv
      exact ⟨a, List.mem_cons_of_mem x ha, hfa⟩

theorem enum_snd_mem {α : Type} :
    ∀ {l : List α} {p : Nat × α}, p ∈ l.enum → p.2 ∈ l := by
  intro l p h
  have := List.mem_enum_iff_getElem?.mp h
  exact List.getElem?_mem this

/-- The per-column projection fold of `alignFrame`: every reconciled
column ends up mapped to a direct reference when the input frame has the
column and to an untyped-null literal otherwise; other keys are
untouched. -/
theorem alignFold_spec (f : Frame) :
    ∀ (l : List String) (acc r : List (String × BaseExpr)),
      l.foldlM (fun acc col => do
        if col ∈ f.tableCols then
          pure (odInsert acc col (← f.ref col))
        else
          pure (odInsert acc col (BaseExpr.lit .noneV .nullDt))) acc = .ok r →
      (∀ c, ¬ c ∈ l → odGet r c = odGet acc c) ∧
      (∀ c ∈ l, ∃ e, odGet r c = some e ∧
        ((c ∈ f.tableCols ∧ f.ref c = .ok e) ∨
         (¬ c ∈ f.tableCols ∧ e = BaseExpr.lit .noneV .nullDt))) := by
  intro l
  induction l with
  | nil =>
    intro acc r h
    simp only [List.foldlM_nil, pure, Except.pure, Except.ok.injEq] at h
    subst h
    exact ⟨fun c _ => rfl, fun c hc => absurd hc (List.not_mem_nil c)⟩
  | cons x xs ih =>
    intro acc r h
    rw [List.foldlM_cons] at h
    obtain ⟨acc2, hstep, hrest⟩ := bindOk h
    obtain ⟨e0, hins, hP⟩ :
        ∃ e0, acc2 = odInsert acc x e0 ∧
          ((x ∈ f.tableCols ∧ f.ref x = .ok e0) ∨
           (¬ x ∈ f.tableCols ∧ e0 = BaseExpr.lit .noneV .nullDt)) := by
      split at hstep
      case isTrue hmem =>
        obtain ⟨e1, href, hp⟩ := bindOk hstep
        simp only [pure, Except.pure, Except.ok.injEq] at hp
        exact ⟨e1, hp.symm, Or.inl ⟨hmem, href⟩⟩
      case isFalse hmem =>
        simp only [pure, Except.pure, Except.ok.injEq] at hstep
        exact ⟨BaseExpr.lit .noneV .nullDt, hstep.symm, Or.inr ⟨hmem, rfl⟩⟩
    obtain ⟨ih1, ih2⟩ := ih acc2 r hrest
    constructor
    · intro c hc
      have hcx : c ≠ x := fun he => hc (by rw [he]; exact List.mem_cons_self x xs)
      have hcxs : ¬ c ∈ xs := fun he => hc (List.mem_cons_of_mem x he)
      rw [ih1 c hcxs, hins, odGet_odInsert_ne acc c x e0 hcx]
    · intro c hc
      by_cases hcxs : c ∈ xs
      · exact ih2 c hcxs
      · have hcx : c = x := by
          rcases List.mem_cons.mp hc with h1 | h1
          · exact h1
          · exact absurd h1 hcxs
        subst hcx
        refine ⟨e0, ?_, hP⟩
        rw [ih1 c hcxs, hins, odGet_odInsert_self]

/-- Shape of a successfully aligned union input: a Transform node over
the untouched input frame projecting every reconciled column, with a
direct reference where the input has the column and an untyped-null
literal where it does not. -/
theorem alignFrame_shape (cols : List String) (dts : List DType) (iw : Nat)
    (ii : Bool) (nid : Nat) (f af : Frame)
    (h : alignFrame cols dts iw ii nid f = .ok af) :
    ∃ exprs, af.opn = .transform f exprs false ∧
      ∀ c ∈ cols, ∃ e, odGet exprs c = some e ∧
        ((c ∈ f.tableCols ∧ f.ref c = .ok e) ∨
         (¬ c ∈ f.tableCols ∧ e = BaseExpr.lit .noneV .nullDt)) := by
  unfold alignFrame at h
  obtain ⟨tr, htr, h⟩ := bindOk h
  obtain ⟨a1, a2, a3⟩ := tr
  dsimp only at h
  obtain ⟨ex, hex, h⟩ := bindOk h
  obtain ⟨-, -, -, hopn, -, -⟩ := mkFrameC_okShape h
  refine ⟨ex, hopn, ?_⟩
  exact (alignFold_spec f cols a2 ex hex).2

/-- C6: a successful row-wise union reconciles the output column set as
the union of all input column sets in first-occurrence order under an
outer join (sorted by name when `sort` is set) and as the iterated
intersection under `join="inner"`, and wraps every input frame in a
Transform node projecting exactly the reconciled columns, each column
missing from an input mapped to an untyped-null literal. -/
theorem claim6_union_schema (self : Frame) (nid : Nat) (others : List Frame)
    (jk : String) (srt : Bool) (ii : Bool) (g : Frame)
    (hok : self.unionAll nid others jk srt ii = .ok g) :
    (jk ≠ "inner" → srt = false →
      g.columnsL = unionFirstOcc (self.columnsL :: others.map Frame.columnsL)) ∧
    (jk ≠ "inner" → srt = true →
      g.columnsL =
        pySorted (unionFirstOcc (self.columnsL :: others.map Frame.columnsL))) ∧
    (jk = "inner" →
      ∀ c, c ∈ g.columnsL ↔
        (c ∈ self.columnsL ∧ ∀ f ∈ others, c ∈ f.columnsL)) ∧
    (∃ aligned, g.opn = .union aligned ∧
      aligned.length = (self :: others).length ∧
      ∀ af ∈ aligned, ∃ inp exprs, af.opn = .transform inp exprs false ∧
        inp ∈ self :: others ∧
        ∀ c ∈ g.columnsL, ∃ e, odGet exprs c = some e ∧
          ((c ∈ inp.tableCols ∧ inp.ref c = .ok e) ∨
           (¬ c ∈ inp.tableCols ∧ e = BaseExpr.lit .noneV .nullDt))) := by
  unfold Frame.unionAll at hok
  obtain ⟨m0, hm0, hok⟩ := bindOk hok
  obtain ⟨ncm, hncm, hok⟩ := bindOk hok
  have hm0keys : m0.map Prod.fst = self.columnsL.foldl insAbsent [] :=
    unionM0_keys self.dtypesL self.columnsL [] m0 hm0
  have houter : jk ≠ "inner" →
      ncm.map Prod.fst =
        unionFirstOcc (self.columnsL :: others.map Frame.columnsL) := by
    intro hjk
    rw [unionOthers_keys jk hjk others m0 ncm hncm, hm0keys]
    unfold unionFirstOcc
    rw [List.foldl_cons, List.foldl_map]
  have hinner : jk = "inner" →
      ∀ c, c ∈ ncm.map Prod.fst ↔
        (c ∈ self.columnsL ∧ ∀ f ∈ others, c ∈ f.columnsL) := by
    intro hjk c
    subst hjk
    rw [unionInner_mem others m0 ncm hncm c, hm0keys, mem_foldl_insAbsent]
    simp
  dsimp only at hok
  split at hok
  case isTrue hsrt =>
    obtain ⟨nd, hnd, hok⟩ := bindOk hok
    obtain ⟨al, hal, hok⟩ := bindOk hok
    cases al with
    | nil => exact absurd hok (by simp [throw, throwThe, MonadExceptOf.throw])
    | cons a0 rest => ?_
    obtain ⟨-, hcols, -, hopn, -, -⟩ := mkFrameC_okShape hok
    refine ⟨?_, ?_, ?_, ?_⟩
    · intro _ hsf
      rw [hsf] at hsrt
      cases hsrt
    · intro hjk _
      rw [hcols, houter hjk]
    · intro hjk c
      rw [hcols, mem_pySorted, ← hinner hjk c]
    · refine ⟨a0 :: rest, hopn, ?_, ?_⟩
      · rw [mapM_okLength hal]
        simp
      · intro af haf
        obtain ⟨p, hpmem, half⟩ := mapM_memOk hal af haf
        obtain ⟨exprs, hafop, hcolsP⟩ :=
          alignFrame_shape _ _ _ _ _ _ _ half
        refine ⟨p.2, exprs, hafop, enum_snd_mem hpmem, ?_⟩
        rw [hcols]
        exact hcolsP
  case isFalse hsrt =>
    obtain ⟨nd, hnd, hok⟩ := bindOk hok
    obtain ⟨al, hal, hok⟩ := bindOk hok
    cases al with
    | nil => exact absurd hok (by simp [throw, throwThe, MonadExceptOf.throw])
    | cons a0 rest => ?_
    obtain ⟨-, hcols, -, hopn, -, -⟩ := mkFrameC_okShape hok
    refine ⟨?_, ?_, ?_, ?_⟩
    · intro hjk _
      rw [hcols, houter hjk]
    · intro _ hst
      rw [hst] at hsrt
      exact absurd rfl hsrt
    · intro hjk c
      rw [hcols, ← hinner hjk c]
    · refine ⟨a0 :: rest, hopn, ?_, ?_⟩
      · rw [mapM_okLength hal]
        simp
      · intro af haf
        obtain ⟨p, hpmem, half⟩ := mapM_memOk hal af haf
        obtain ⟨exprs, hafop, hcolsP⟩ :=
          alignFrame_shape _ _ _ _ _ _ _ half
        refine ⟨p.2, exprs, hafop, enum_snd_mem hpmem, ?_⟩
        rw [hcols]
        exact hcolsP

/-- Concrete runs of C6: concatenating the frames with columns `a, b`
and `b, c` row-wise yields columns `a, b, c` under `join="outer"` and
only `b` under `join="inner"`. -/
theorem claim6_union_schema_witness :
    exUnionRes.columnsL = ["a", "b", "c"] ∧
    "b" ∈ exUnionInnerRes.columnsL ∧
    ¬ "a" ∈ exUnionInnerRes.columnsL ∧
    ¬ "c" ∈ exUnionInnerRes.columnsL := by
  have h1 := claim6_union_schema exFrameA 10 [exFrameD] "outer" false false
    exUnionRes rfl
  have h2 := claim6_union_schema exFrameA 10 [exFrameD] "inner" false false
    exUnionInnerRes rfl
  refine ⟨(h1.1 (by decide) rfl).trans (by decide), ?_, ?_, ?_⟩
  · refine (h2.2.2.1 rfl "b").mpr ⟨by decide, ?_⟩
    intro f hf
    simp only [List.mem_singleton] at hf
    subst hf
    decide
  · intro hmem
    have h3 := ((h2.2.2.1 rfl "a").mp hmem).2 exFrameD (by simp)
    revert h3
    decide
  · intro hmem
    have h3 := ((h2.2.2.1 rfl "c").mp hmem).1
    revert h3
    decide

/-! ### Rebasing-termination helper lemmas -/

theorem fsize_pos (f : Frame) : 1 ≤ f.fsize := by
  obtain ⟨_, _, _, _, o, _, _, _, _⟩ := f
  simp only [Frame.fsize]
  omega

theorem mem_framesSize {g : Frame} :
    ∀ {fs : List Frame}, g ∈ fs → g.fsize < framesSize fs := by
  intro fs
  induction fs with
  | nil => intro h; cases h
  | cons f fs ih =>
    intro h
    rcases List.mem_cons.mp h with rfl | h
    · simp only [framesSize]; omega
    · have := ih h; simp only [framesSize]; omega

theorem inputs_fsize {f g : Frame} (h : g ∈ f.opn.inputs) : g.fsize < f.fsize := by
  obtain ⟨fid, cols, ics, dts, o, ps, ic, rl, cw⟩ := f
  simp only [Frame.opn] at h
  cases o with
  | source => simp [OpNode.inputs] at h
  | mask g' a b c =>
    simp only [OpNode.inputs, List.mem_singleton] at h
    subst h
    simp only [Frame.fsize, OpNode.osize]
    omega
  | transform g' ex fl =>
    simp only [OpNode.inputs, List.mem_singleton] at h
    subst h
    simp only [Frame.fsize, OpNode.osize]
    omega
  | join l r a b c d e =>
    simp only [OpNode.inputs, List.mem_cons, List.mem_singleton,
      List.not_mem_nil, or_false] at h
    rcases h with rfl | rfl <;> (simp only [Frame.fsize, OpNode.osize]; omega)
  | groupbyAgg b' a b c =>
    simp only [OpNode.inputs, List.mem_singleton] at h
    subst h
    simp only [Frame.fsize, OpNode.osize]
    omega
  | union fs =>
    simp only [OpNode.inputs] at h
    have := mem_framesSize h
    simp only [Frame.fsize, OpNode.osize]
    omega

theorem input0_fsize {f g : Frame} (h : f.opn.input0 = .ok g) :
    g.fsize < f.fsize := by
  unfold OpNode.input0 at h
  dsimp only at h
  cases hi : f.opn.inputs with
  | nil => rw [hi] at h; exact absurd h (by simp)
  | cons a as =>
    rw [hi] at h
    simp only [Except.ok.injEq] at h
    subst h
    exact inputs_fsize (by rw [hi]; exact List.mem_cons_self a as)

theorem exprsSize_mem {p : String × BaseExpr} :
    ∀ {ex : List (String × BaseExpr)}, p ∈ ex → p.2.esize < exprsSize ex := by
  intro ex
  induction ex with
  | nil => intro h; cases h
  | cons q qs ih =>
    intro h
    rcases List.mem_cons.mp h with rfl | h
    · simp only [exprsSize]; omega
    · have := ih h; simp only [exprsSize]; omega

theorem opn_transform_exprsSize {f g : Frame} {ex fl}
    (h : f.opn = .transform g ex fl) : exprsSize ex < f.fsize := by
  obtain ⟨fid, cols, ics, dts, o, ps, ic, rl, cw⟩ := f
  simp only [Frame.opn] at h
  subst h
  simp only [Frame.fsize, OpNode.osize]
  omega

theorem mem_addFrame_of_mem {acc : List Frame} {f g : Frame} (h : g ∈ acc) :
    g ∈ addFrame acc f := by
  unfold addFrame
  split
  · exact h
  · exact List.mem_append_left _ h

theorem mem_addFrame {acc : List Frame} {f g : Frame} (h : g ∈ addFrame acc f) :
    g ∈ acc ∨ g = f := by
  unfold addFrame at h
  split at h
  · exact Or.inl h
  · rcases List.mem_append.mp h with h | h
    · exact Or.inl h
    · exact Or.inr (List.mem_singleton.mp h)

theorem addFrame_repr (acc : List Frame) (f : Frame) :
    ∃ g ∈ addFrame acc f, g.fid = f.fid := by
  unfold addFrame
  split
  · next hany =>
    rcases List.any_eq_true.mp hany with ⟨g, hg, hfid⟩
    exact ⟨g, hg, of_decide_eq_true hfid⟩
  · exact ⟨f, List.mem_append_right _ (List.mem_singleton.mpr rfl), rfl⟩

theorem collect_supset {g : Frame} (e : BaseExpr) :
    ∀ (acc : List Frame), g ∈ acc → g ∈ BaseExpr.collectFrames acc e :=
  match e with
  | .refE _ _ _ => fun _ h => mem_addFrame_of_mem h
  | .lit _ _ => fun _ h => h
  | .binop l r _ _ => fun acc h =>
      collect_supset r _ (collect_supset l acc h)
  | .iteE c t e' _ => fun acc h =>
      collect_supset e' _ (collect_supset t _ (collect_supset c acc h))
  | .isNullE a => fun acc h => collect_supset a acc h
  | .dtExtract _ a _ => fun acc h => collect_supset a acc h

theorem collect_cases {g : Frame} (e : BaseExpr) :
    ∀ (acc : List Frame), g ∈ BaseExpr.collectFrames acc e →
      g ∈ acc ∨ g.fsize < e.esize :=
  match e with
  | .refE f _ _ => fun _ h => by
    rcases mem_addFrame h with h | rfl
    · exact Or.inl h
    · refine Or.inr ?_
      simp only [BaseExpr.esize]
      omega
  | .lit _ _ => fun _ h => Or.inl h
  | .binop l r _ _ => fun acc h => by
    rcases collect_cases r _ h with h | h
    · rcases collect_cases l _ h with h | h
      · exact Or.inl h
      · refine Or.inr ?_; simp only [BaseExpr.esize]; omega
    · refine Or.inr ?_; simp only [BaseExpr.esize]; omega
  | .iteE c t e' _ => fun acc h => by
    rcases collect_cases e' _ h with h | h
    · rcases collect_cases t _ h with h | h
      · rcases collect_cases c _ h with h | h
        · exact Or.inl h
        · refine Or.inr ?_; simp only [BaseExpr.esize]; omega
      · refine Or.inr ?_; simp only [BaseExpr.esize]; omega
    · refine Or.inr ?_; simp only [BaseExpr.esize]; omega
  | .isNullE a => fun acc h => by
    rcases collect_cases a _ h with h | h
    · exact Or.inl h
    · refine Or.inr ?_; simp only [BaseExpr.esize]; omega
  | .dtExtract _ a _ => fun acc h => by
    rcases collect_cases a _ h with h | h
    · exact Or.inl h
    · refine Or.inr ?_; simp only [BaseExpr.esize]; omega

theorem refFids_repr (e : BaseExpr) :
    ∀ (acc : List Frame) (i : Nat), i ∈ BaseExpr.refFids e →
      ∃ g ∈ BaseExpr.collectFrames acc e, g.fid = i :=
  match e with
  | .refE f _ _ => fun acc i hi => by
    simp only [BaseExpr.refFids, List.mem_singleton] at hi
    subst hi
    exact addFrame_repr acc f
  | .lit _ _ => fun _ _ hi => by simp [BaseExpr.refFids] at hi
  | .binop l r _ _ => fun acc i hi => by
    simp only [BaseExpr.refFids, List.mem_append] at hi
    rcases hi with hi | hi
    · rcases refFids_repr l acc i hi with ⟨g, hg, hfid⟩
      exact ⟨g, collect_supset r _ hg, hfid⟩
    · exact refFids_repr r _ i hi
  | .iteE c t e' _ => fun acc i hi => by
    simp only [BaseExpr.refFids, List.mem_append] at hi
    rcases hi with (hi | hi) | hi
    · rcases refFids_repr c acc i hi with ⟨g, hg, hfid⟩
      exact ⟨g, collect_supset e' _ (collect_supset t _ hg), hfid⟩
    · rcases refFids_repr t _ i hi with ⟨g, hg, hfid⟩
      exact ⟨g, collect_supset e' _ hg, hfid⟩
    · exact refFids_repr e' _ i hi
  | .isNullE a => fun acc i hi =>
    refFids_repr a acc i (by simpa [BaseExpr.refFids] using hi)
  | .dtExtract _ a _ => fun acc i hi =>
    refFids_repr a acc i (by simpa [BaseExpr.refFids] using hi)

theorem allRefFids_cons (p : String × BaseExpr)
    (ps : List (String × BaseExpr)) :
    allRefFids (p :: ps) = p.2.refFids ++ allRefFids ps := rfl

theorem mem_allRefFids {i : Nat} :
    ∀ {exprs : List (String × BaseExpr)},
      i ∈ allRefFids exprs ↔ ∃ p ∈ exprs, i ∈ p.2.refFids := by
  intro exprs
  induction exprs with
  | nil => simp [allRefFids]
  | cons p ps ih =>
    rw [allRefFids_cons, List.mem_append, ih]
    constructor
    · rintro (h | ⟨q, hq, hi⟩)
      · exact ⟨p, List.mem_cons_self _ _, h⟩
      · exact ⟨q, List.mem_cons_of_mem _ hq, hi⟩
    · rintro ⟨q, hq, hi⟩
      rcases List.mem_cons.mp hq with rfl | hq
      · exact Or.inl hi
      · exact Or.inr ⟨q, hq, hi⟩

theorem mem_le_maxFrameSize {g : Frame} :
    ∀ {l : List Frame}, g ∈ l → g.fsize ≤ maxFrameSize l := by
  intro l
  induction l with
  | nil => intro h; cases h
  | cons f fs ih =>
    intro h
    rcases List.mem_cons.mp h with rfl | h
    · simp only [maxFrameSize, List.foldr_cons]
      exact le_max_left _ _
    · have hle := ih h
      simp only [maxFrameSize, List.foldr_cons]
      simp only [maxFrameSize] at hle
      exact le_trans hle (le_max_right _ _)

theorem maxFrameSize_le {n : Nat} :
    ∀ {l : List Frame}, (∀ g ∈ l, g.fsize ≤ n) → maxFrameSize l ≤ n := by
  intro l
  induction l with
  | nil =>
    intro _
    simp only [maxFrameSize, List.foldr_nil]
    exact Nat.zero_le n
  | cons f fs ih =>
    intro h
    simp only [maxFrameSize, List.foldr_cons]
    refine max_le (h f (List.mem_cons_self _ _)) ?_
    have := ih (fun g hg => h g (List.mem_cons_of_mem _ hg))
    simpa [maxFrameSize] using this

theorem bindNoFuel {α β : Type} {x : Except Err α} {f : α → Except Err β}
    (hx : x ≠ .error .fuelExhausted)
    (hf : ∀ a, f a ≠ .error .fuelExhausted) :
    (x >>= f) ≠ .error .fuelExhausted := by
  cases x with
  | error e => simpa [bind, Except.bind] using hx
  | ok a => simpa [bind, Except.bind] using hf a

theorem pureNoFuel {α : Type} (a : α) :
    (pure a : Except Err α) ≠ .error .fuelExhausted := by
  simp [pure, Except.pure]

theorem okNoFuel {α : Type} (a : α) :
    (Except.ok a : Except Err α) ≠ .error .fuelExhausted := by
  simp

theorem ref_noFuel (t : Frame) (c : String) :
    Frame.ref t c ≠ .error .fuelExhausted := by
  unfold Frame.ref
  split
  · exact okNoFuel _
  · refine bindNoFuel ?_ (fun dt => pureNoFuel _)
    unfold seriesGet
    cases odGet t.dtypesL c <;> simp

theorem translateInput_noFuel (m : List (Nat × Mapper)) (e : BaseExpr) :
    BaseExpr.translateInput m e ≠ .error .fuelExhausted :=
  match e with
  | .refE f c _ => by
    dsimp only [BaseExpr.translateInput]
    cases hmo : (m.find? (fun p => p.1 = f.fid)).map (fun p => p.2) with
    | none => simp
    | some mp =>
      cases mp with
      | direct t => exact ref_noFuel t c
      | transf ex =>
        cases hog : odGet ex c with
        | none => simp [hog]
        | some e2 => simp [hog]
  | .lit _ _ => by simp [BaseExpr.translateInput]
  | .binop l r _ _ => by
    dsimp only [BaseExpr.translateInput]
    exact bindNoFuel (translateInput_noFuel m l) (fun _ =>
      bindNoFuel (translateInput_noFuel m r) (fun _ => pureNoFuel _))
  | .iteE c t e' _ => by
    dsimp only [BaseExpr.translateInput]
    exact bindNoFuel (translateInput_noFuel m c) (fun _ =>
      bindNoFuel (translateInput_noFuel m t) (fun _ =>
        bindNoFuel (translateInput_noFuel m e') (fun _ => pureNoFuel _)))
  | .isNullE a => by
    dsimp only [BaseExpr.translateInput]
    exact bindNoFuel (translateInput_noFuel m a) (fun _ => pureNoFuel _)
  | .dtExtract _ a _ => by
    dsimp only [BaseExpr.translateInput]
    exact bindNoFuel (translateInput_noFuel m a) (fun _ => pureNoFuel _)

theorem findMapper_some {m : List (Nat × Mapper)} {fid : Nat} {mp : Mapper}
    (h : (m.find? (fun p => p.1 = fid)).map (fun p => p.2) = some mp) :
    ∃ q ∈ m, q.2 = mp := by
  rcases Option.map_eq_some'.mp h with ⟨q, hq, hq2⟩
  exact ⟨q, List.mem_of_find?_eq_some hq, hq2⟩

theorem odGet_mem {α : Type} {ex : List (String × α)} {c : String} {v : α}
    (h : odGet ex c = some v) : ∃ p ∈ ex, p.2 = v := by
  unfold odGet at h
  rcases Option.map_eq_some'.mp h with ⟨q, hq, hq2⟩
  exact ⟨q, List.mem_of_find?_eq_some hq, hq2⟩

theorem translateInput_frames {m : List (Nat × Mapper)} {frames : List Frame}
    (hm : ∀ q ∈ m, MapperBound frames q) (e : BaseExpr) :
    ∀ (e' : BaseExpr), BaseExpr.translateInput m e = .ok e' →
    ∀ (g : Frame) (acc : List Frame), g ∈ BaseExpr.collectFrames acc e' →
      g ∈ acc ∨ (g.fid ∈ BaseExpr.refFids e ∧ ∀ q ∈ m, q.1 ≠ g.fid) ∨
        ∃ f ∈ frames, g.fsize < f.fsize :=
  match e with
  | .refE f c dt => fun e' he g acc hg => by
    dsimp only [BaseExpr.translateInput] at he
    cases hmo : (m.find? (fun p => p.1 = f.fid)).map (fun p => p.2) with
    | none =>
      rw [hmo] at he
      simp only [Except.ok.injEq] at he
      subst he
      dsimp only [BaseExpr.collectFrames] at hg
      rcases mem_addFrame hg with hga | rfl
      · exact Or.inl hga
      · refine Or.inr (Or.inl ⟨by simp [BaseExpr.refFids], ?_⟩)
        intro q hq hqe
        have hfn : m.find? (fun p => p.1 = g.fid) = none :=
          Option.map_eq_none'.mp hmo
        exact (List.find?_eq_none.mp hfn q hq) (decide_eq_true hqe)
    | some mp =>
      rw [hmo] at he
      cases mp with
      | direct t =>
        dsimp only at he
        have hbound : ∃ f' ∈ frames, t.fsize < f'.fsize := by
          obtain ⟨q, hq, hq2⟩ := findMapper_some hmo
          have hb := hm q hq
          simpa only [MapperBound, hq2] using hb
        unfold Frame.ref at he
        split at he
        · simp only [Except.ok.injEq] at he
          subst he
          dsimp only [BaseExpr.collectFrames] at hg
          rcases mem_addFrame hg with hga | rfl
          · exact Or.inl hga
          · exact Or.inr (Or.inr hbound)
        · rcases hs : seriesGet t.dtypesL c with e0 | dt2
          · rw [hs] at he
            exact absurd he (by simp [bind, Except.bind])
          · rw [hs] at he
            simp only [bind, Except.bind, pure, Except.pure,
              Except.ok.injEq] at he
            subst he
            dsimp only [BaseExpr.collectFrames] at hg
            rcases mem_addFrame hg with hga | rfl
            · exact Or.inl hga
            · exact Or.inr (Or.inr hbound)
      | transf ex =>
        dsimp only at he
        cases hog : odGet ex c with
        | none =>
          rw [hog] at he
          exact absurd he (by simp)
        | some es =>
          rw [hog] at he
          simp only [Except.ok.injEq] at he
          subst he
          rcases collect_cases es _ hg with hga | hsz
          · exact Or.inl hga
          · refine Or.inr (Or.inr ?_)
            obtain ⟨q, hq, hq2⟩ := findMapper_some hmo
            have hb := hm q hq
            simp only [MapperBound, hq2] at hb
            obtain ⟨f', hf', hsz2⟩ := hb
            obtain ⟨pp, hpp, hpe⟩ := odGet_mem hog
            have h5 := exprsSize_mem hpp
            rw [hpe] at h5
            exact ⟨f', hf', by omega⟩
  | .lit v dt => fun e' he g acc hg => by
    dsimp only [BaseExpr.translateInput] at he
    simp only [Except.ok.injEq] at he
    subst he
    exact Or.inl hg
  | .binop l r o dt => fun e' he g acc hg => by
    dsimp only [BaseExpr.translateInput] at he
    rcases hl : BaseExpr.translateInput m l with el | l'
    · rw [hl] at he
      exact absurd he (by simp [bind, Except.bind])
    · rw [hl] at he
      rcases hr : BaseExpr.translateInput m r with er | r'
      · rw [hr] at he
        exact absurd he (by simp [bind, Except.bind])
      · rw [hr] at he
        simp only [bind, Except.bind, pure, Except.pure,
          Except.ok.injEq] at he
        subst he
        dsimp only [BaseExpr.collectFrames] at hg
        rcases translateInput_frames hm r r' hr g _ hg with hga | hmid | hbound
        · rcases translateInput_frames hm l l' hl g _ hga with
            hga2 | hmid2 | hbound2
          · exact Or.inl hga2
          · refine Or.inr (Or.inl ⟨?_, hmid2.2⟩)
            simp only [BaseExpr.refFids, List.mem_append]
            exact Or.inl hmid2.1
          · exact Or.inr (Or.inr hbound2)
        · refine Or.inr (Or.inl ⟨?_, hmid.2⟩)
          simp only [BaseExpr.refFids, List.mem_append]
          exact Or.inr hmid.1
        · exact Or.inr (Or.inr hbound)
  | .iteE c t e2 dt => fun e' he g acc hg => by
    dsimp only [BaseExpr.translateInput] at he
    rcases hc : BaseExpr.translateInput m c with ec | c'
    · rw [hc] at he
      exact absurd he (by simp [bind, Except.bind])
    · rw [hc] at he
      rcases ht : BaseExpr.translateInput m t with et | t'
      · rw [ht] at he
        exact absurd he (by simp [bind, Except.bind])
      · rw [ht] at he
        rcases he2 : BaseExpr.translateInput m e2 with ee | e2'
        · rw [he2] at he
          exact absurd he (by simp [bind, Except.bind])
        · rw [he2] at he
          simp only [bind, Except.bind, pure, Except.pure,
            Except.ok.injEq] at he
          subst he
          dsimp only [BaseExpr.collectFrames] at hg
          rcases translateInput_frames hm e2 e2' he2 g _ hg with
            hga | hmid | hbound
          · rcases translateInput_frames hm t t' ht g _ hga with
              hga2 | hmid2 | hbound2
            · rcases translateInput_frames hm c c' hc g _ hga2 with
                hga3 | hmid3 | hbound3
              · exact Or.inl hga3
              · refine Or.inr (Or.inl ⟨?_, hmid3.2⟩)
                simp only [BaseExpr.refFids, List.mem_append]
                exact Or.inl (Or.inl hmid3.1)
              · exact Or.inr (Or.inr hbound3)
            · refine Or.inr (Or.inl ⟨?_, hmid2.2⟩)
              simp only [BaseExpr.refFids, List.mem_append]
              exact Or.inl (Or.inr hmid2.1)
            · exact Or.inr (Or.inr hbound2)
          · refine Or.inr (Or.inl ⟨?_, hmid.2⟩)
            simp only [BaseExpr.refFids, List.mem_append]
            exact Or.inr hmid.1
          · exact Or.inr (Or.inr hbound)
  | .isNullE a => fun e' he g acc hg => by
    dsimp only [BaseExpr.translateInput] at he
    rcases ha : BaseExpr.translateInput m a with ea | a'
    · rw [ha] at he
      exact absurd he (by simp [bind, Except.bind])
    · rw [ha] at he
      simp only [bind, Except.bind, pure, Except.pure, Except.ok.injEq] at he
      subst he
      dsimp only [BaseExpr.collectFrames] at hg
      rcases translateInput_frames hm a a' ha g _ hg with hga | hmid | hbound
      · exact Or.inl hga
      · exact Or.inr (Or.inl ⟨by simpa [BaseExpr.refFids] using hmid.1,
          hmid.2⟩)
      · exact Or.inr (Or.inr hbound)
  | .dtExtract p a dt => fun e' he g acc hg => by
    dsimp only [BaseExpr.translateInput] at he
    rcases ha : BaseExpr.translateInput m a with ea | a'
    · rw [ha] at he
      exact absurd he (by simp [bind, Except.bind])
    · rw [ha] at he
      simp only [bind, Except.bind, pure, Except.pure, Except.ok.injEq] at he
      subst he
      dsimp only [BaseExpr.collectFrames] at hg
      rcases translateInput_frames hm a a' ha g _ hg with hga | hmid | hbound
      · exact Or.inl hga
      · exact Or.inr (Or.inl ⟨by simpa [BaseExpr.refFids] using hmid.1,
          hmid.2⟩)
      · exact Or.inr (Or.inr hbound)

theorem MapperBound_mono {l l' : List Frame} {q : Nat × Mapper}
    (hsub : ∀ x ∈ l, x ∈ l') (h : MapperBound l q) : MapperBound l' q := by
  obtain ⟨i, mp⟩ := q
  cases mp with
  | direct t =>
    obtain ⟨f, hf, hlt⟩ := h
    exact ⟨f, hsub f hf, hlt⟩
  | transf ex =>
    obtain ⟨f, hf, hlt⟩ := h
    exact ⟨f, hsub f hf, hlt⟩

theorem buildMapperStep_ok {baseFid : Nat}
    {acc out : List (Nat × Mapper) × List Frame} {f : Frame}
    (h : buildMapperStep baseFid acc f = .ok out) :
    (∃ mp, out.1 = acc.1 ++ [(f.fid, mp)] ∧ MapperBound [f] (f.fid, mp)) ∧
    (∀ g ∈ out.2, g ∈ acc.2 ∨ (g.fsize < f.fsize ∧ g.fid ≠ baseFid)) := by
  unfold buildMapperStep at h
  rcases hi : f.opn.input0 with e0 | fb
  · rw [hi] at h
    exact absurd h (by simp [bind, Except.bind])
  · have hfb := input0_fsize hi
    rw [hi] at h
    simp only [bind, Except.bind] at h
    cases ho : f.opn with
    | source =>
      rw [ho] at hi
      simp [OpNode.input0, OpNode.inputs] at hi
    | mask g' sl cl dl =>
      rw [ho] at h
      simp only [pure, Except.pure, Except.ok.injEq] at h
      have h1 : out.1 = acc.1 ++ [(f.fid, Mapper.direct fb)] := by rw [← h]
      have h2 : out.2 =
          (if fb.fid ≠ baseFid then addFrame acc.2 fb else acc.2) := by
        rw [← h]
      constructor
      · refine ⟨Mapper.direct fb, h1, ?_⟩
        exact ⟨f, List.mem_singleton.mpr rfl, hfb⟩
      · intro g hg
        rw [h2] at hg
        split at hg
        · next hcond =>
          rcases mem_addFrame hg with hga | rfl
          · exact Or.inl hga
          · exact Or.inr ⟨hfb, hcond⟩
        · exact Or.inl hg
    | transform g' ex fl =>
      rw [ho] at h
      simp only [pure, Except.pure, Except.ok.injEq] at h
      have h1 : out.1 = acc.1 ++ [(f.fid, Mapper.transf ex)] := by rw [← h]
      have h2 : out.2 =
          (if fb.fid ≠ baseFid then addFrame acc.2 fb else acc.2) := by
        rw [← h]
      constructor
      · refine ⟨Mapper.transf ex, h1, ?_⟩
        exact ⟨f, List.mem_singleton.mpr rfl, opn_transform_exprsSize ho⟩
      · intro g hg
        rw [h2] at hg
        split at hg
        · next hcond =>
          rcases mem_addFrame hg with hga | rfl
          · exact Or.inl hga
          · exact Or.inr ⟨hfb, hcond⟩
        · exact Or.inl hg
    | join l r a b c d e =>
      rw [ho] at h
      simp [throw, throwThe, MonadExceptOf.throw] at h
    | groupbyAgg b' a b c =>
      rw [ho] at h
      simp [throw, throwThe, MonadExceptOf.throw] at h
    | union fs =>
      rw [ho] at h
      simp [throw, throwThe, MonadExceptOf.throw] at h

theorem buildMapperStep_noFuel (baseFid : Nat)
    (acc : List (Nat × Mapper) × List Frame) (f : Frame) :
    buildMapperStep baseFid acc f ≠ .error .fuelExhausted := by
  unfold buildMapperStep
  refine bindNoFuel ?_ ?_
  · unfold OpNode.input0
    dsimp only
    cases f.opn.inputs <;> simp
  · intro fb
    dsimp only
    cases f.opn <;>
      simp [throw, throwThe, MonadExceptOf.throw, pure, Except.pure]

theorem buildMapperFold_ok {baseFid : Nat} :
    ∀ (fs : List Frame) (acc out : List (Nat × Mapper) × List Frame),
      buildMapperFold baseFid acc fs = .ok out →
      (∀ q ∈ acc.1, q ∈ out.1) ∧
      (∀ q ∈ out.1, q ∈ acc.1 ∨ MapperBound fs q) ∧
      (∀ f ∈ fs, ∃ q ∈ out.1, q.1 = f.fid) ∧
      (∀ g ∈ out.2, g ∈ acc.2 ∨
        ∃ f ∈ fs, g.fsize < f.fsize ∧ g.fid ≠ baseFid) := by
  intro fs
  induction fs with
  | nil =>
    intro acc out h
    simp only [buildMapperFold, Except.ok.injEq] at h
    subst h
    refine ⟨fun q hq => hq, fun q hq => Or.inl hq, ?_, fun g hg => Or.inl hg⟩
    intro f hf
    cases hf
  | cons f fs ih =>
    intro acc out h
    simp only [buildMapperFold] at h
    rcases hs : buildMapperStep baseFid acc f with e0 | a'
    · rw [hs] at h
      exact absurd h (by simp [bind, Except.bind])
    · rw [hs] at h
      simp only [bind, Except.bind] at h
      obtain ⟨hm1, hm2, hm3, hm4⟩ := ih a' out h
      obtain ⟨⟨mp, ha1, hmb⟩, ha2⟩ := buildMapperStep_ok hs
      refine ⟨?_, ?_, ?_, ?_⟩
      · intro q hq
        exact hm1 q (by rw [ha1]; exact List.mem_append_left _ hq)
      · intro q hq
        rcases hm2 q hq with hq2 | hb
        · rw [ha1] at hq2
          rcases List.mem_append.mp hq2 with hq3 | hq3
          · exact Or.inl hq3
          · have hq4 : q = (f.fid, mp) := List.mem_singleton.mp hq3
            subst hq4
            refine Or.inr (MapperBound_mono ?_ hmb)
            intro x hx
            rw [List.mem_singleton] at hx
            subst hx
            exact List.mem_cons_self _ _
        · exact Or.inr
            (MapperBound_mono (fun x hx => List.mem_cons_of_mem f hx) hb)
      · intro f' hf'
        rcases List.mem_cons.mp hf' with rfl | hf2
        · refine ⟨(f'.fid, mp), hm1 _ ?_, rfl⟩
          rw [ha1]
          exact List.mem_append_right _ (List.mem_singleton.mpr rfl)
        · exact hm3 f' hf2
      · intro g hg
        rcases hm4 g hg with hg2 | ⟨f2, hf2, hlt, hne⟩
        · rcases ha2 g hg2 with hg3 | ⟨hlt, hne⟩
          · exact Or.inl hg3
          · exact Or.inr ⟨f, List.mem_cons_self _ _, hlt, hne⟩
        · exact Or.inr ⟨f2, List.mem_cons_of_mem _ hf2, hlt, hne⟩

theorem buildMapperFold_noFuel (baseFid : Nat) :
    ∀ (fs : List Frame) (acc : List (Nat × Mapper) × List Frame),
      buildMapperFold baseFid acc fs ≠ .error .fuelExhausted := by
  intro fs
  induction fs with
  | nil =>
    intro acc
    simp [buildMapperFold]
  | cons f fs ih =>
    intro acc
    simp only [buildMapperFold]
    exact bindNoFuel (buildMapperStep_noFuel baseFid acc f) (fun a' => ih a')

theorem translFold_ok {mapper : List (Nat × Mapper)} {frames : List Frame}
    {baseFid : Nat}
    (hm : ∀ q ∈ mapper, MapperBound frames q)
    (hcov : ∀ f ∈ frames, ∃ q ∈ mapper, q.1 = f.fid) :
    ∀ (ps : List (String × BaseExpr))
      (acc out : List (String × BaseExpr) × List Frame),
      translFold mapper acc ps = .ok out →
      (∀ p ∈ ps, ∀ i ∈ p.2.refFids,
        i = baseFid ∨ ∃ fr ∈ frames, fr.fid = i) →
      (∀ g ∈ acc.2, g ∈ out.2) ∧
      (∀ g ∈ out.2, g ∈ acc.2 ∨ g.fid = baseFid ∨
        ∃ f ∈ frames, g.fsize < f.fsize) ∧
      out.1.map Prod.fst = acc.1.map Prod.fst ++ ps.map Prod.fst ∧
      (∀ i ∈ allRefFids out.1,
        i ∈ allRefFids acc.1 ∨ ∃ g ∈ out.2, g.fid = i) := by
  intro ps
  induction ps with
  | nil =>
    intro acc out h hinv
    simp only [translFold, Except.ok.injEq] at h
    subst h
    exact ⟨fun g hg => hg, fun g hg => Or.inl hg, by simp,
      fun i hi => Or.inl hi⟩
  | cons p ps ih =>
    intro acc out h hinv
    simp only [translFold] at h
    rcases he : BaseExpr.translateInput mapper p.2 with e0 | e'
    · rw [he] at h
      exact absurd h (by simp [bind, Except.bind])
    · rw [he] at h
      simp only [bind, Except.bind] at h
      have hinv' : ∀ p' ∈ ps, ∀ i ∈ p'.2.refFids,
          i = baseFid ∨ ∃ fr ∈ frames, fr.fid = i :=
        fun p' hp' => hinv p' (List.mem_cons_of_mem _ hp')
      obtain ⟨t1, t2, t3, t4⟩ := ih _ out h hinv'
      refine ⟨?_, ?_, ?_, ?_⟩
      · intro g hg
        exact t1 g (collect_supset e' _ hg)
      · intro g hg
        rcases t2 g hg with hg2 | hrest
        · rcases translateInput_frames hm p.2 e' he g _ hg2 with
            hga | ⟨href, hunm⟩ | hbound
          · exact Or.inl hga
          · rcases hinv p (List.mem_cons_self _ _) g.fid href with
              hb | ⟨fr, hfr, hfid⟩
            · exact Or.inr (Or.inl hb)
            · obtain ⟨q, hq, hq1⟩ := hcov fr hfr
              exact absurd (hq1.trans hfid) (hunm q hq)
          · exact Or.inr (Or.inr hbound)
        · exact Or.inr hrest
      · rw [t3]
        simp
      · intro i hi
        rcases t4 i hi with hi2 | hrep
        · rw [mem_allRefFids] at hi2
          obtain ⟨q, hq, hqr⟩ := hi2
          rcases List.mem_append.mp hq with hq2 | hq2
          · exact Or.inl (mem_allRefFids.mpr ⟨q, hq2, hqr⟩)
          · have hq3 : q = (p.1, e') := List.mem_singleton.mp hq2
            subst hq3
            obtain ⟨g, hg, hgf⟩ := refFids_repr e' acc.2 i hqr
            exact Or.inr ⟨g, t1 g hg, hgf⟩
        · exact Or.inr hrep

theorem translFold_noFuel (mapper : List (Nat × Mapper)) :
    ∀ (ps : List (String × BaseExpr))
      (acc : List (String × BaseExpr) × List Frame),
      translFold mapper acc ps ≠ .error .fuelExhausted := by
  intro ps
  induction ps with
  | nil =>
    intro acc
    simp [translFold]
  | cons p ps ih =>
    intro acc
    simp only [translFold]
    exact bindNoFuel (translateInput_noFuel mapper p.2) (fun e' => ih _)

theorem translStep_spec {baseFid : Nat} {frames : List Frame}
    {exprs : List (String × BaseExpr)} {nf : List Frame}
    {ne : List (String × BaseExpr)}
    (h : translStep baseFid frames exprs = .ok (nf, ne))
    (hinv : InvRefs baseFid frames exprs) :
    (∀ g ∈ nf, ∃ f ∈ frames, g.fsize < f.fsize) ∧
    InvRefs baseFid nf ne ∧ ne.map Prod.fst = exprs.map Prod.fst := by
  unfold translStep at h
  rcases h1 : buildMapperFold baseFid ([], []) frames with e0 | mnf
  · rw [h1] at h
    exact absurd h (by simp [bind, Except.bind])
  · rw [h1] at h
    simp only [bind, Except.bind] at h
    obtain ⟨mapper, nf0⟩ := mnf
    dsimp only at h
    rcases h2 : translFold mapper ([], nf0) exprs with e1 | pne
    · rw [h2] at h
      exact absurd h (by simp [bind, Except.bind])
    · rw [h2] at h
      simp only [bind, Except.bind] at h
      obtain ⟨ne', nf1⟩ := pne
      dsimp only at h
      simp only [pure, Except.pure, Except.ok.injEq, Prod.mk.injEq] at h
      obtain ⟨hnf, hne⟩ := h
      subst hne
      subst hnf
      obtain ⟨hm1, hm2, hm3, hm4⟩ := buildMapperFold_ok frames ([], [])
        (mapper, nf0) h1
      have hmB : ∀ q ∈ mapper, MapperBound frames q := by
        intro q hq
        rcases hm2 q hq with hq2 | hb
        · exact absurd hq2 (by simp)
        · exact hb
      have hnf0 : ∀ g ∈ nf0, ∃ f ∈ frames, g.fsize < f.fsize ∧
          g.fid ≠ baseFid := by
        intro g hg
        rcases hm4 g hg with hg2 | hb
        · exact absurd hg2 (by simp)
        · exact hb
      have hinv2 : ∀ p ∈ exprs, ∀ i ∈ p.2.refFids,
          i = baseFid ∨ ∃ fr ∈ frames, fr.fid = i := by
        intro p hp i hi
        exact hinv i (mem_allRefFids.mpr ⟨p, hp, hi⟩)
      obtain ⟨t1, t2, t3, t4⟩ :=
        translFold_ok hmB hm3 exprs ([], nf0) (ne', nf1) h2 hinv2
      refine ⟨?_, ?_, ?_⟩
      · intro g hg
        have hgmem := List.mem_filter.mp hg
        rcases t2 g hgmem.1 with hg2 | hbase | hbound
        · obtain ⟨f2, hf2, hlt, _⟩ := hnf0 g hg2
          exact ⟨f2, hf2, hlt⟩
        · exact absurd hbase (by simpa using hgmem.2)
        · exact hbound
      · intro i hi
        rcases t4 i hi with hi2 | ⟨g, hg, hgf⟩
        · exact absurd hi2 (by simp [allRefFids])
        · by_cases hib : i = baseFid
          · exact Or.inl hib
          · refine Or.inr ⟨g, ?_, hgf⟩
            refine List.mem_filter.mpr ⟨hg, ?_⟩
            simp [hgf, hib]
      · simpa using t3

theorem translStep_noFuel (baseFid : Nat) (frames : List Frame)
    (exprs : List (String × BaseExpr)) :
    translStep baseFid frames exprs ≠ .error .fuelExhausted := by
  unfold translStep
  refine bindNoFuel (buildMapperFold_noFuel baseFid frames ([], [])) ?_
  intro x
  obtain ⟨mapper, nf0⟩ := x
  dsimp only
  refine bindNoFuel (translFold_noFuel mapper exprs ([], nf0)) ?_
  intro y
  obtain ⟨ne', nf1⟩ := y
  dsimp only
  exact pureNoFuel _

theorem translLoop_spec (baseFid : Nat) :
    ∀ (fuel : Nat) (frames : List Frame) (exprs : List (String × BaseExpr)),
      maxFrameSize frames ≤ fuel →
      InvRefs baseFid frames exprs →
      translLoop baseFid fuel frames exprs ≠ .error .fuelExhausted ∧
      ∀ res, translLoop baseFid fuel frames exprs = .ok res →
        (∀ i ∈ allRefFids res, i = baseFid) ∧
        res.map Prod.fst = exprs.map Prod.fst := by
  intro fuel
  induction fuel with
  | zero =>
    intro frames exprs hfuel hinv
    cases frames with
    | nil =>
      refine ⟨by simp [translLoop], ?_⟩
      intro res hres
      simp only [translLoop, Except.ok.injEq] at hres
      subst hres
      refine ⟨?_, rfl⟩
      intro i hi
      rcases hinv i hi with hb | ⟨g, hg, _⟩
      · exact hb
      · cases hg
    | cons f fs =>
      have h1 : f.fsize ≤ maxFrameSize (f :: fs) :=
        mem_le_maxFrameSize (List.mem_cons_self _ _)
      have h2 := fsize_pos f
      omega
  | succ fuel ih =>
    intro frames exprs hfuel hinv
    cases frames with
    | nil =>
      refine ⟨by simp [translLoop], ?_⟩
      intro res hres
      simp only [translLoop, Except.ok.injEq] at hres
      subst hres
      refine ⟨?_, rfl⟩
      intro i hi
      rcases hinv i hi with hb | ⟨g, hg, _⟩
      · exact hb
      · cases hg
    | cons f fs =>
      rcases hstep : translStep baseFid (f :: fs) exprs with e0 | pr
      · constructor
        · intro hcontra
          simp only [translLoop] at hcontra
          rw [hstep] at hcontra
          simp only [bind, Except.bind, Except.error.injEq] at hcontra
          subst hcontra
          exact translStep_noFuel baseFid (f :: fs) exprs hstep
        · intro res hres
          simp only [translLoop] at hres
          rw [hstep] at hres
          exact absurd hres (by simp [bind, Except.bind])
      · obtain ⟨nf, ne⟩ := pr
        obtain ⟨p1, p2, p3⟩ := translStep_spec hstep hinv
        have hmax : maxFrameSize nf ≤ fuel := by
          refine maxFrameSize_le ?_
          intro g hg
          obtain ⟨f2, hf2, hlt⟩ := p1 g hg
          have := mem_le_maxFrameSize hf2
          omega
        obtain ⟨ihA, ihB⟩ := ih nf ne hmax p2
        constructor
        · intro hcontra
          simp only [translLoop] at hcontra
          rw [hstep] at hcontra
          simp only [bind, Except.bind] at hcontra
          exact ihA hcontra
        · intro res hres
          simp only [translLoop] at hres
          rw [hstep] at hres
          simp only [bind, Except.bind] at hres
          obtain ⟨hB1, hB2⟩ := ihB res hres
          exact ⟨hB1, hB2.trans p3⟩

theorem collectFold_supset {g : Frame} :
    ∀ (exprs : List (String × BaseExpr)) (acc : List Frame), g ∈ acc →
      g ∈ exprs.foldl (fun a q => BaseExpr.collectFrames a q.2) acc := by
  intro exprs
  induction exprs with
  | nil =>
    intro acc h
    simpa using h
  | cons q qs ih =>
    intro acc h
    rw [List.foldl_cons]
    exact ih _ (collect_supset q.2 acc h)

theorem collectFold_repr {i : Nat} :
    ∀ (exprs : List (String × BaseExpr)) (acc : List Frame)
      (p : String × BaseExpr), p ∈ exprs → i ∈ p.2.refFids →
      ∃ g ∈ exprs.foldl (fun a q => BaseExpr.collectFrames a q.2) acc,
        g.fid = i := by
  intro exprs
  induction exprs with
  | nil =>
    intro acc p hp
    cases hp
  | cons q qs ih =>
    intro acc p hp hi
    rw [List.foldl_cons]
    rcases List.mem_cons.mp hp with rfl | hp2
    · obtain ⟨g, hg, hgf⟩ := refFids_repr p.2 acc i hi
      exact ⟨g, collectFold_supset qs _ hg, hgf⟩
    · exact ih _ p hp2 hi

theorem collectAll_repr {p : String × BaseExpr}
    {exprs : List (String × BaseExpr)} {i : Nat}
    (hp : p ∈ exprs) (hi : i ∈ p.2.refFids) :
    ∃ g ∈ collectAllFrames exprs, g.fid = i :=
  collectFold_repr exprs [] p hp hi

/-- **C3**: `_translate_exprs_to_base` terminates: the fixed-point loop,
run with fuel equal to the maximum structural frame size of the initial
non-base frame set, never exhausts its fuel (each iteration replaces
every pending frame by strict structural pieces of the old ones, so the
measure strictly decreases while the frame set is nonempty), and on
normal termination every expression references only the base frame and
the expression names are preserved. -/
theorem claim3_translate_terminates (exprs : List (String × BaseExpr))
    (base : Frame) :
    translateExprsToBase exprs base ≠ .error .fuelExhausted ∧
    ∀ res, translateExprsToBase exprs base = .ok res →
      (∀ i ∈ allRefFids res, i = base.fid) ∧
      res.map Prod.fst = exprs.map Prod.fst := by
  unfold translateExprsToBase
  refine translLoop_spec base.fid (maxFrameSize _) _ exprs (le_refl _) ?_
  intro i hi
  by_cases hib : i = base.fid
  · exact Or.inl hib
  · refine Or.inr ?_
    have hrep : ∃ g ∈ collectAllFrames exprs, g.fid = i := by
      rw [mem_allRefFids] at hi
      obtain ⟨p, hp, hpr⟩ := hi
      exact collectAll_repr hp hpr
    obtain ⟨g, hg, hgf⟩ := hrep
    refine ⟨g, ?_, hgf⟩
    refine List.mem_filter.mpr ⟨hg, ?_⟩
    simp [hgf, hib]

/-- Witness for C3: the concrete run rebasing a reference through the
mask frame `exFrameB` onto `exFrameA` does not exhaust its fuel, its
result references only `exFrameA`, and the expression names survive. -/
theorem claim3_translate_terminates_witness :
    translateExprsToBase exTranslInput exFrameA ≠
      Except.error Err.fuelExhausted ∧
    (allRefFids exTranslRes).all (fun i => decide (i = exFrameA.fid)) =
      true ∧
    exTranslRes.map Prod.fst = exTranslInput.map Prod.fst := by
  have h := claim3_translate_terminates exTranslInput exFrameA
  have h2 := h.2 exTranslRes rfl
  refine ⟨h.1, ?_, h2.2⟩
  rw [List.all_eq_true]
  intro i hi
  exact decide_eq_true (h2.1 i hi)
